import Mathlib

/-!
Formal model of the Local-Cocoa `local_rag_agent` core: the semantic
chunking pipeline (`services/local_rag_agent/chunker.py`) and the parts of
the indexing orchestrator (`services/local_rag_agent/indexer.py`) that the
specification's testable properties talk about.

Python strings are modelled as `List Char` (Python indexes strings by code
point, so list index = Python index).  Machine details that no property
depends on are noted at each definition.  All definitions are executable.
-/

namespace LocalCocoa

/-! ### Python string primitives -/

/-- Python whitespace for `str.strip` and the regex class `\s`
(ASCII range: space, tab, newline, carriage return, vertical tab, form feed). -/
def pyIsSpace (c : Char) : Bool :=
  c = ' ' ∨ c = '\t' ∨ c = '\n' ∨ c = '\r' ∨ c = '\x0b' ∨ c = '\x0c'

/-- `str.lstrip()` with default (whitespace) argument. -/
def pyLstrip (s : List Char) : List Char := s.dropWhile pyIsSpace

/-- `str.rstrip()` with default (whitespace) argument. -/
def pyRstrip (s : List Char) : List Char := (s.reverse.dropWhile pyIsSpace).reverse

/-- `str.strip()` with default (whitespace) argument. -/
def pyStrip (s : List Char) : List Char := pyRstrip (pyLstrip s)

/-- Python slice `text[i:j]` for `0 ≤ i ≤ j` (the only shape the chunker uses). -/
def slice (l : List Char) (i j : Nat) : List Char := (l.drop i).take (j - i)

/-- Python `text.find(sub, start)`: index of the first occurrence of `sub`
at an index `≥ start`, `none` for Python's `-1`. -/
def pyFindFrom (text sub : List Char) (start : Nat) : Option Nat :=
  (List.range (text.length + 1)).find? (fun i => start ≤ i ∧ sub.isPrefixOf (text.drop i))

/-! ### xxh64 (the `xxhash` dependency used for chunk ids)

Straight transcription of the XXH64 algorithm over byte lists, with
64-bit arithmetic carried out in `Nat` modulo `2 ^ 64`. -/

def mask64 (n : Nat) : Nat := n % 18446744073709551616

def prime64One : Nat := 11400714785074694791
def prime64Two : Nat := 14029467366897019727
def prime64Three : Nat := 1609587929392839161
def prime64Four : Nat := 9650029242287828579
def prime64Five : Nat := 2870177450012600261

/-- Rotate a 64-bit value (as a `Nat < 2^64`) left by `r` bits (`0 < r < 64`). -/
def rotl64 (x r : Nat) : Nat := mask64 (x * 2 ^ r) + x / 2 ^ (64 - r)

def xxhRound (acc input : Nat) : Nat :=
  mask64 (rotl64 (mask64 (acc + input * prime64Two)) 31 * prime64One)

def xxhMergeRound (h acc : Nat) : Nat :=
  mask64 ((h ^^^ xxhRound 0 acc) * prime64One + prime64Four)

/-- Read up to 8 bytes little-endian. -/
def readLE (bytes : List Nat) : Nat := bytes.foldr (fun b acc => b + 256 * acc) 0

/-- 32-byte stripe loop.  The first argument is fuel for structural
recursion; each iteration consumes 32 bytes, so `bytes.length + 1` fuel is
never exhausted. -/
def xxh64Stripes : Nat → (Nat × Nat × Nat × Nat) → List Nat → (Nat × Nat × Nat × Nat) × List Nat
  | 0, vs, bytes => (vs, bytes)
  | fuel + 1, vs, bytes =>
    if 32 ≤ bytes.length then
      xxh64Stripes fuel
        (xxhRound vs.1 (readLE (bytes.take 8)),
         xxhRound vs.2.1 (readLE ((bytes.drop 8).take 8)),
         xxhRound vs.2.2.1 (readLE ((bytes.drop 16).take 8)),
         xxhRound vs.2.2.2 (readLE ((bytes.drop 24).take 8)))
        (bytes.drop 32)
    else (vs, bytes)

/-- Trailing 8-byte loop, fuel-structured like `xxh64Stripes`. -/
def xxh64Tail8 : Nat → Nat → List Nat → Nat × List Nat
  | 0, h, bytes => (h, bytes)
  | fuel + 1, h, bytes =>
    if 8 ≤ bytes.length then
      xxh64Tail8 fuel
        (mask64 (rotl64 (h ^^^ xxhRound 0 (readLE (bytes.take 8))) 27 * prime64One + prime64Four))
        (bytes.drop 8)
    else (h, bytes)

def xxh64Avalanche (h0 : Nat) : Nat :=
  let h1 := h0 ^^^ h0 / 2 ^ 33
  let h2 := mask64 (h1 * prime64Two)
  let h3 := h2 ^^^ h2 / 2 ^ 29
  let h4 := mask64 (h3 * prime64Three)
  h4 ^^^ h4 / 2 ^ 32

def xxh64Finalize (h0 : Nat) (bytes : List Nat) : Nat :=
  let (h1, rest1) := xxh64Tail8 (bytes.length + 1) h0 bytes
  let (h2, rest2) :=
    if 4 ≤ rest1.length then
      (mask64 (rotl64 (h1 ^^^ mask64 (readLE (rest1.take 4) * prime64One)) 23 * prime64Two
          + prime64Three), rest1.drop 4)
    else (h1, rest1)
  let h3 := rest2.foldl (fun h b => mask64 (rotl64 (h ^^^ mask64 (b * prime64Five)) 11 * prime64One)) h2
  xxh64Avalanche h3

def xxh64 (seed : Nat) (input : List Nat) : Nat :=
  let len := input.length
  let (h0, rest) :=
    if 32 ≤ len then
      let st0 := (mask64 (seed + prime64One + prime64Two),
                  mask64 (seed + prime64Two),
                  seed,
                  mask64 (seed + (18446744073709551616 - prime64One)))
      let (vs, rest) := xxh64Stripes (len + 1) st0 input
      let (v1, v2, v3, v4) := vs
      let h := mask64 (rotl64 v1 1 + rotl64 v2 7 + rotl64 v3 12 + rotl64 v4 18)
      let h := xxhMergeRound h v1
      let h := xxhMergeRound h v2
      let h := xxhMergeRound h v3
      let h := xxhMergeRound h v4
      (h, rest)
    else (mask64 (seed + prime64Five), input)
  xxh64Finalize (mask64 (h0 + len)) rest

def hexDigitChar (n : Nat) : Char :=
  if n < 10 then Char.ofNat (48 + n) else Char.ofNat (87 + n)

/-- `xxhash.xxh64(...).hexdigest()`: 16 lowercase hex digits, zero padded. -/
def toHex64 (n : Nat) : String :=
  String.mk ((List.range 16).map (fun i => hexDigitChar (n / 2 ^ (4 * (15 - i)) % 16)))

/-- UTF-8 encoding of a code point (what `str.encode` / `digest.update` sees). -/
def utf8Char (c : Char) : List Nat :=
  let n := c.toNat
  if n < 128 then [n]
  else if n < 2048 then [192 + n / 64, 128 + n % 64]
  else if n < 65536 then [224 + n / 4096, 128 + n / 64 % 64, 128 + n % 64]
  else [240 + n / 262144, 128 + n / 4096 % 64, 128 + n / 64 % 64, 128 + n % 64]

def utf8Bytes (s : List Char) : List Nat := (s.map utf8Char).flatten

/-- `ChunkingPipeline._chunk_id` (chunker.py lines 686-690):
`xxh64` hexdigest of the string `"{file_id}:{ordinal}:{start_offset}"`. -/
def chunkIdStr (fileId : String) (ordinal : Nat) (startOffset : Int) : String :=
  toHex64 (xxh64 0 (utf8Bytes
    ((fileId ++ (":") ++ toString ordinal ++ (":") ++ toString startOffset).toList)))

/-! ### ChunkingPipeline configuration (chunker.py lines 61-79)

`tiktoken` is an optional dependency; this model embeds the pipeline with
`self.tokenizer = None`, so `_token_count` is the `chars // char_ratio`
heuristic.  `char_ratio` is always set to 4 in `__init__`. -/

structure ChunkingPipeline where
  chunkTokens : Int
  overlapTokens : Int
  minChunkTokens : Int
  charsPerToken : Nat
deriving DecidableEq, Repr

/-- `ChunkingPipeline.__init__` (chunker.py lines 61-79):
`chunk_tokens = max(chunk_tokens, 64)`,
`overlap_tokens = max(min(overlap_tokens, chunk_tokens // 4), 0)`,
`min_chunk_tokens = max(min_chunk_tokens, 20)`, `char_ratio = 4`.
Python `//` is floor division, hence `Int.fdiv`. -/
def ChunkingPipeline.init (chunkTokens overlapTokens minChunkTokens : Int) : ChunkingPipeline :=
  { chunkTokens := max chunkTokens 64
    overlapTokens := max (min overlapTokens (Int.fdiv (max chunkTokens 64) 4)) 0
    minChunkTokens := max minChunkTokens 20
    charsPerToken := 4 }

/-- `build`'s `target_chunk_tokens = chunk_tokens if chunk_tokens is not None
else self.chunk_tokens` (chunker.py line 105): per-call overrides are used
verbatim, without the `__init__` clamping. -/
def targetChunkTokens (cfg : ChunkingPipeline) (override : Option Int) : Int :=
  override.getD cfg.chunkTokens

/-- `build`'s `target_overlap_tokens` (chunker.py line 106). -/
def targetOverlapTokens (cfg : ChunkingPipeline) (override : Option Int) : Int :=
  override.getD cfg.overlapTokens

/-- `ChunkingPipeline._token_count` with `tokenizer = None` (chunker.py
lines 678-684): `max(len(text) // self.char_ratio, 1)`. -/
def tokenCountNoTok (charsPerToken : Nat) (l : List Char) : Nat :=
  max (l.length / charsPerToken) 1

/-! ### Markdown section splitting (chunker.py lines 568-652)

`SECTION_PATTERN = ^(#+)\s+(.*)$` with `re.MULTILINE` is matched line by
line: a line of the form `#...# <heading>` yields a match whose start is the
line start, whose level is the number of `#` and whose heading text is the
rest of the line after the maximal whitespace run (then `.strip()`-ped).
(The regex can also match a bare `#...#` line whose `\s+` spans the newline;
no input considered here contains such a line.) -/

/-- `text.split('\n')` together with each line's start offset. -/
def linesWithOffsets : Nat → List (List Char) → List (Nat × List Char)
  | _, [] => []
  | pos, l :: rest => (pos, l) :: linesWithOffsets (pos + l.length + 1) rest

def splitNl (text : List Char) : List (List Char) := text.splitOn '\n'

/-- One `SECTION_PATTERN` match: `(match.start(), "level:heading".strip())`. -/
def sectionLineMatch (pl : Nat × List Char) : Option (Nat × String) :=
  let line := pl.2
  let hashes := line.takeWhile (fun c => c = '#')
  if hashes.isEmpty then none
  else
    let rest := line.drop hashes.length
    let ws := rest.takeWhile pyIsSpace
    if ws.isEmpty then none
    else
      let heading := rest.drop ws.length
      some (pl.1, toString hashes.length ++ (":") ++ String.mk (pyStrip heading))

def sectionHeadingMatches (text : List Char) : List (Nat × String) :=
  (linesWithOffsets 0 (splitNl text)).filterMap sectionLineMatch

/-- Pair each match with the next match's start (or `text.length`). -/
def zipWithNextStart (len : Nat) : List (Nat × String) → List ((Nat × String) × Nat)
  | [] => []
  | [m] => [(m, len)]
  | m :: m2 :: rest => (m, m2.1) :: zipWithNextStart len (m2 :: rest)

/-- The `raw_sections` list of `_split_sections` (chunker.py lines 576-607),
including the preamble handling: a preamble that strips non-empty and is
longer than 300 chars becomes its own `(None, …)` section, otherwise a
non-empty preamble is glued onto the first section (whose start becomes 0). -/
def rawSections (text : List Char) (ms : List (Nat × String)) :
    List (Option String × List Char × Nat) :=
  match ms with
  | [] => [(none, text, 0)]
  | m0 :: _ =>
    let pairs := zipWithNextStart text.length ms
    let firstStart := m0.1
    let preamble := text.take firstStart
    let preambleOwn : Bool := 0 < firstStart ∧ ¬(pyStrip preamble).isEmpty ∧ 300 < preamble.length
    let mergePre : Bool := 0 < firstStart ∧ ¬preambleOwn
    let head := if preambleOwn then [((none : Option String), preamble, 0)] else []
    head ++ pairs.mapIdx (fun i p =>
      let body := slice text p.1.1 p.2
      if i = 0 ∧ mergePre then (some p.1.2, preamble ++ body, 0)
      else (some p.1.2, body, p.1.1))

/-- One iteration of the small-section merge loop of `_split_sections`
(chunker.py lines 618-640). -/
def mergeSectionsStep (minSectionChars : Int) :
    (List (Option String × List Char × Nat) × Option (Option String × List Char × Nat)) →
    (Option String × List Char × Nat) →
    (List (Option String × List Char × Nat) × Option (Option String × List Char × Nat))
  | (merged, some pend), (_, body, _) =>
    let combined := pend.2.1 ++ '\n' :: body
    if minSectionChars ≤ ((pyStrip combined).length : Int) then
      (merged ++ [(pend.1, combined, pend.2.2)], none)
    else (merged, some (pend.1, combined, pend.2.2))
  | (merged, none), (path, body, start) =>
    if ((pyStrip body).length : Int) < minSectionChars then (merged, some (path, body, start))
    else (merged ++ [(path, body, start)], none)

/-- The trailing-pending handling of `_split_sections` (chunker.py lines 643-650). -/
def mergeSectionsFinish :
    (List (Option String × List Char × Nat) × Option (Option String × List Char × Nat)) →
    List (Option String × List Char × Nat)
  | (merged, none) => merged
  | (merged, some pend) =>
    match merged.getLast? with
    | some last => merged.dropLast ++ [(last.1, last.2.1 ++ '\n' :: pend.2.1, last.2.2)]
    | none => [pend]

/-- `ChunkingPipeline._split_sections` (chunker.py lines 568-652).
`min_section_chars = self.min_chunk_tokens * self.char_ratio`. -/
def splitSections (minSectionChars : Int) (text : List Char) :
    List (Option String × List Char × Nat) :=
  if text.isEmpty then [(none, [], 0)]
  else
    match sectionHeadingMatches text with
    | [] => [(none, text, 0)]
    | ms =>
      let raw := rawSections text ms
      let merged := mergeSectionsFinish
        (raw.foldl (mergeSectionsStep minSectionChars) ([], none))
      if merged.isEmpty then [(none, text, 0)] else merged

/-! ### Paragraph / blank-line separators

`PARAGRAPH_SPLIT = \n\s*\n+` (used by `re.split` without a capture group)
and the capture pattern `\n\s*\n` of `_split_at_blank_lines` produce the
same list of match spans: a match starts at a `'\n'` whose maximal
whitespace run contains at least one further `'\n'`, and the greedy match
ends just past the last `'\n'` of that run. -/

def lastNewlineIdx (l : List Char) : Option Nat :=
  ((List.range l.length).filter (fun j => l.get? j = some '\n')).getLast?

/-- Separator-match scanner.  The first argument is fuel for structural
recursion; each step consumes at least one character, so `text.length + 1`
fuel is never exhausted. -/
def paraMatchesGo : Nat → Nat → List Char → List (Nat × Nat)
  | 0, _, _ => []
  | _, _, [] => []
  | fuel + 1, pos, c :: rest =>
    if c = '\n' then
      let run := (c :: rest).takeWhile pyIsSpace
      match lastNewlineIdx run with
      | some k =>
        if 0 < k then (pos, pos + k + 1) :: paraMatchesGo fuel (pos + k + 1) (rest.drop k)
        else paraMatchesGo fuel (pos + 1) rest
      | none => paraMatchesGo fuel (pos + 1) rest
    else paraMatchesGo fuel (pos + 1) rest

/-- Segments of `text` between the separator matches (`re.split` without
capture group). -/
def cutByMatches (text : List Char) : Nat → List (Nat × Nat) → List (List Char)
  | pos, [] => [text.drop pos]
  | pos, (s, e) :: rest => slice text pos s :: cutByMatches text e rest

/-- Segments of `text` interleaved with the separator matches (`re.split`
with a capture group, as in `_split_at_blank_lines`). -/
def cutKeepSep (text : List Char) : Nat → List (Nat × Nat) → List (List Char)
  | pos, [] => [text.drop pos]
  | pos, (s, e) :: rest => slice text pos s :: slice text s e :: cutKeepSep text e rest

/-- `PARAGRAPH_SPLIT.split(text)` (chunker.py line 23 / 334). -/
def pyParagraphSplitParts (text : List Char) : List (List Char) :=
  cutByMatches text 0 (paraMatchesGo (text.length + 1) 0 text)

/-- `re.split(r'(\n\s*\n)', text)` (chunker.py line 518). -/
def pyBlankLineParts (text : List Char) : List (List Char) :=
  cutKeepSep text 0 (paraMatchesGo (text.length + 1) 0 text)

/-- `LIST_ITEM_PATTERN.match(part)` (chunker.py line 24):
`^(\s*)([-*+]|\d+\.)\s+` anchored at the start. -/
def listItemMatch (p : List Char) : Bool :=
  let r := p.dropWhile pyIsSpace
  match r with
  | [] => false
  | c :: cs =>
    if c = '-' ∨ c = '*' ∨ c = '+' then
      match cs.head? with
      | some c2 => pyIsSpace c2
      | none => false
    else
      let ds := r.takeWhile (fun c => c.isDigit)
      if ds.isEmpty then false
      else
        match r.drop ds.length with
        | '.' :: cs2 =>
          match cs2.head? with
          | some c2 => pyIsSpace c2
          | none => false
        | _ => false

/-! ### Semantic blocks (chunker.py lines 264-417) -/

inductive BlockType where
  | paragraph
  | list
  | code
  | table
deriving DecidableEq, Repr

structure SemanticBlock where
  text : List Char
  blockType : BlockType
  startOffset : Nat
  endOffset : Nat
deriving DecidableEq, Repr

/-- Pairs of positions of the triple-backtick fence delimiters: the
non-greedy matches of `CODE_BLOCK_PATTERN` pair each opening fence with the
first closing fence at distance `≥ 3`, scanning left to right without
overlap (chunker.py lines 21, 271-272). -/
def pairCodeFences : Nat → List Nat → List (Nat × Nat)
  | 0, _ => []
  | _, [] => []
  | fuel + 1, p :: rest =>
    match rest.filter (fun q => p + 3 ≤ q) with
    | [] => []
    | q :: _ => (p, q + 3) :: pairCodeFences fuel (rest.filter (fun r => q + 3 ≤ r))

def fenceChars : List Char := ['`', '`', '`']

def codeBlockRanges (text : List Char) : List (Nat × Nat) :=
  pairCodeFences (text.length + 1) ((List.range (text.length + 1)).filter
    (fun i => fenceChars.isPrefixOf (text.drop i)))

/-- Table-row / separator-row tests of `_find_table_ranges`
(chunker.py lines 396-399). -/
def tableRowFlags (line : List Char) : Bool × Bool :=
  let s := pyStrip line
  let isRow :=
    match s with
    | c :: cs => c = '|' ∧ cs.contains '|'
    | [] => false
  let dashChars : List Char := ['-', '-', '-']
  let isSep := (pyFindFrom s dashChars 0).isSome ∧ s.contains '|'
  (isRow, isSep)

/-- Line loop of `_find_table_ranges` (chunker.py lines 384-417). -/
def tableRangesGo (textLen : Nat) :
    List (List Char) → Nat → Bool → Nat → List (Nat × Nat)
  | [], _, inT, ts => if inT then [(ts, textLen)] else []
  | line :: rest, cp, inT, ts =>
    let f := tableRowFlags line
    let next := cp + line.length + 1
    if f.1 ∨ (inT ∧ f.2) then
      if inT then tableRangesGo textLen rest next true ts
      else tableRangesGo textLen rest next true cp
    else
      if inT then (ts, cp) :: tableRangesGo textLen rest next false 0
      else tableRangesGo textLen rest next false ts

def findTableRanges (text : List Char) : List (Nat × Nat) :=
  tableRangesGo text.length (splitNl text) 0 false 0

/-- Stable sort by range start, mirroring
`sorted(code_ranges + table_ranges, key=lambda x: x[0])` (chunker.py line 278). -/
def insertByStart (x : Nat × Nat) : List (Nat × Nat) → List (Nat × Nat)
  | [] => [x]
  | y :: ys => if y.1 ≤ x.1 then y :: insertByStart x ys else x :: y :: ys

def sortByStart (l : List (Nat × Nat)) : List (Nat × Nat) :=
  l.foldl (fun acc x => insertByStart x acc) []

/-- `_parse_paragraphs_and_lists` (chunker.py lines 323-382): part loop. -/
def parsePLGo (text : List Char) (base : Nat) :
    Nat → List (List Char) → Nat → List SemanticBlock
  | 0, _, _ => []
  | _, [], _ => []
  | fuel + 1, part :: rest, cp =>
    if (pyStrip part).isEmpty then parsePLGo text base fuel rest (cp + part.length + 2)
    else
      let partStart := (pyFindFrom text part cp).getD cp
      if listItemMatch part then
        let grouped := rest.takeWhile (fun p => ¬p.isEmpty ∧ listItemMatch (pyStrip p))
        let listText := List.intercalate ['\n', '\n'] (part :: grouped)
        let listEnd := partStart + listText.length
        SemanticBlock.mk listText BlockType.list (base + partStart) (base + listEnd) ::
          parsePLGo text base fuel (rest.drop grouped.length) listEnd
      else
        SemanticBlock.mk part BlockType.paragraph (base + partStart)
            (base + partStart + part.length) ::
          parsePLGo text base fuel rest (partStart + part.length)

def parseParagraphsAndLists (seg : List Char) (base : Nat) : List SemanticBlock :=
  if (pyStrip seg).isEmpty then []
  else
    let parts := pyParagraphSplitParts seg
    parsePLGo seg base (parts.length + 1) parts 0

/-- Main position loop of `_parse_semantic_blocks` (chunker.py lines 281-319).
Fuel bounds the iteration count; every recursive call strictly advances the
position, so `text.length + 1` fuel is never exhausted. -/
def parseBlocksGo (text : List Char) (ranges codeRanges : List (Nat × Nat)) :
    Nat → Nat → List SemanticBlock
  | 0, _ => []
  | fuel + 1, cp =>
    if text.length ≤ cp then []
    else
      match ranges.find? (fun r => (r.1 ≤ cp ∧ cp < r.2) ∨ cp < r.1) with
      | some (s, e) =>
        if s ≤ cp ∧ cp < e then
          SemanticBlock.mk (slice text s e)
              (if (s, e) ∈ codeRanges then BlockType.code else BlockType.table) s e ::
            parseBlocksGo text ranges codeRanges fuel e
        else
          parseParagraphsAndLists (slice text cp s) cp ++
            parseBlocksGo text ranges codeRanges fuel s
      | none => parseParagraphsAndLists (slice text cp text.length) cp

/-- `ChunkingPipeline._parse_semantic_blocks` (chunker.py lines 264-321). -/
def parseSemanticBlocks (text : List Char) : List SemanticBlock :=
  let codeRanges := codeBlockRanges text
  let protRanges := sortByStart (codeRanges ++ findTableRanges text)
  parseBlocksGo text protRanges codeRanges (text.length + 1) 0

/-! ### Sentence splitting (chunker.py lines 479-507)

The local pattern `([.!?。！？；]+[\s\n]*)` of `_split_into_sentences`,
scanned with `finditer`: a match starts at the first sentence-ender,
consumes the maximal run of enders, then the maximal whitespace run. -/

def sentenceEnder (c : Char) : Bool :=
  c = '.' ∨ c = '!' ∨ c = '?' ∨ c = '。' ∨ c = '！' ∨ c = '？' ∨ c = '；'

theorem lengthTakeWhileLe {α : Type} (p : α → Bool) (l : List α) :
    (l.takeWhile p).length ≤ l.length := by
  induction l with
  | nil => simp [List.takeWhile]
  | cons a l ih =>
    by_cases h : p a = true <;> simp [List.takeWhile, h] <;> omega

theorem lengthDropWhileLe {α : Type} (p : α → Bool) (l : List α) :
    (l.dropWhile p).length ≤ l.length := by
  induction l with
  | nil => simp [List.dropWhile]
  | cons a l ih =>
    by_cases h : p a = true <;> simp [List.dropWhile, h] <;> omega

/-- End positions of the `finditer` matches. -/
def sentenceMatchEnds : Nat → Nat → List Char → List Nat
  | 0, _, _ => []
  | fuel + 1, pos, l =>
    match l.dropWhile (fun c => ¬sentenceEnder c) with
    | [] => []
    | _ :: rest =>
      let k := (l.takeWhile (fun c => ¬sentenceEnder c)).length
      let m := 1 + (rest.takeWhile sentenceEnder).length
      let rest2 := rest.drop (rest.takeWhile sentenceEnder).length
      let w := (rest2.takeWhile pyIsSpace).length
      (pos + k + m + w) :: sentenceMatchEnds fuel (pos + k + m + w) (rest2.drop w)

/-- Cut `text` at the match ends into `(sentence, start, end)` triples,
dropping whitespace-only pieces (chunker.py lines 489-501). -/
def sentenceTriples (text : List Char) : Nat → List Nat → List (List Char × Nat × Nat)
  | lastEnd, [] =>
    if lastEnd < text.length ∧ ¬(pyStrip (text.drop lastEnd)).isEmpty then
      [(text.drop lastEnd, lastEnd, text.length)]
    else []
  | lastEnd, e :: rest =>
    let s := slice text lastEnd e
    (if (pyStrip s).isEmpty then [] else [(s, lastEnd, e)]) ++ sentenceTriples text e rest

/-- `ChunkingPipeline._split_into_sentences` (chunker.py lines 479-507). -/
def splitIntoSentences (text : List Char) : List (List Char × Nat × Nat) :=
  let res := sentenceTriples text 0 (sentenceMatchEnds (text.length + 1) 0 text)
  if res.isEmpty then [(text, 0, text.length)] else res

/-! ### Large-block splitting (chunker.py lines 419-542) -/

/-- Loop body of `_split_at_sentences` (chunker.py lines 439-477).
State: `(chunks, current_chunk, current_start)`. -/
def splitAtSentencesStep (maxChars minChars : Int)
    (st : List (List Char × Nat × Nat) × List Char × Nat) (sent : List Char × Nat × Nat) :
    List (List Char × Nat × Nat) × List Char × Nat :=
  let (chunks, cur, curStart) := st
  let (sentence, sentStart, _) := sent
  if (pyStrip sentence).isEmpty then st
  else if ¬cur.isEmpty ∧ maxChars < ((cur.length + sentence.length : Nat) : Int) then
    if minChars ≤ ((pyStrip cur).length : Int) then
      (chunks ++ [(pyStrip cur, curStart, curStart + (pyRstrip cur).length)], sentence, sentStart)
    else (chunks, cur ++ sentence, curStart)
  else
    if cur.isEmpty then (chunks, sentence, sentStart)
    else (chunks, cur ++ sentence, curStart)

/-- `ChunkingPipeline._split_at_sentences` (chunker.py lines 439-477). -/
def splitAtSentences (maxChars minChars : Int) (text : List Char) :
    List (List Char × Nat × Nat) :=
  let fin := (splitIntoSentences text).foldl (splitAtSentencesStep maxChars minChars) ([], [], 0)
  let (chunks, cur, curStart) := fin
  let chunks :=
    if (pyStrip cur).isEmpty then chunks
    else chunks ++ [(pyStrip cur, curStart, curStart + (pyRstrip cur).length)]
  if chunks.isEmpty then [(text, 0, text.length)] else chunks

/-- Loop body of `_split_at_blank_lines` (chunker.py lines 509-542).
State: `(chunks, current_chunk, current_start, current_pos)`. -/
def splitAtBlankLinesStep (maxChars minChars : Int)
    (st : List (List Char × Nat × Nat) × List Char × Nat × Nat) (part : List Char) :
    List (List Char × Nat × Nat) × List Char × Nat × Nat :=
  let (chunks, cur, curStart, curPos) := st
  if ¬cur.isEmpty ∧ maxChars < ((cur.length + part.length : Nat) : Int) then
    if minChars ≤ ((pyStrip cur).length : Int) then
      (chunks ++ [(cur, curStart, curStart + cur.length)], part, curPos, curPos + part.length)
    else (chunks, cur ++ part, curStart, curPos + part.length)
  else
    if cur.isEmpty then (chunks, cur ++ part, curPos, curPos + part.length)
    else (chunks, cur ++ part, curStart, curPos + part.length)

/-- `ChunkingPipeline._split_at_blank_lines` (chunker.py lines 509-542). -/
def splitAtBlankLines (maxChars minChars : Int) (text : List Char) :
    List (List Char × Nat × Nat) :=
  let fin := (pyBlankLineParts text).foldl (splitAtBlankLinesStep maxChars minChars) ([], [], 0, 0)
  let (chunks, cur, curStart, _) := fin
  let chunks :=
    if (pyStrip cur).isEmpty then chunks
    else chunks ++ [(cur, curStart, curStart + cur.length)]
  if chunks.isEmpty then [(text, 0, text.length)] else chunks

/-- `ChunkingPipeline._split_large_block` (chunker.py lines 419-437). -/
def splitLargeBlock (maxChars minChars : Int) (b : SemanticBlock) :
    List (List Char × Nat × Nat) :=
  match b.blockType with
  | BlockType.code => splitAtBlankLines maxChars minChars b.text
  | BlockType.table => splitAtBlankLines maxChars minChars b.text
  | _ => splitAtSentences maxChars minChars b.text

/-- `ChunkingPipeline._get_overlap_text` (chunker.py lines 544-566). -/
def getOverlapText (overlapChars : Int) (text : List Char) : List Char :=
  if overlapChars ≤ 0 ∨ (text.length : Int) ≤ overlapChars then []
  else
    let region := text.drop (text.length - overlapChars.toNat)
    let sentences := splitIntoSentences region
    if 1 < sentences.length then pyStrip ((sentences.drop 1).map (fun s => s.1)).flatten
    else
      match region.findIdx? (fun c => c = ' ') with
      | some sp =>
        if 0 < sp ∧ sp < region.length / 2 then pyStrip (region.drop (sp + 1))
        else pyStrip region
      | none => pyStrip region

/-! ### Semantic chunk accumulation (chunker.py lines 186-262) -/

/-- Loop body of `_semantic_chunk` over the block list (chunker.py lines
216-256).  State: `(chunks, current_chunk, current_start)`; offsets are
`Int` because overlap seeding subtracts the overlap length from the next
block's start offset. -/
def semanticChunkStep (maxChars minChars overlapChars : Int)
    (st : List (List Char × Int × Int) × List Char × Int) (b : SemanticBlock) :
    List (List Char × Int × Int) × List Char × Int :=
  let (chunks, cur, curStart) := st
  let bt := b.text
  if maxChars < (bt.length : Int) then
    let closed : Bool := ¬(pyStrip cur).isEmpty
    let chunks1 := if closed then chunks ++ [(cur, curStart, curStart + (cur.length : Int))] else chunks
    let cur1 := if closed then [] else cur
    let subs := splitLargeBlock maxChars minChars b
    let chunks2 := chunks1 ++ subs.map (fun t =>
      (t.1, ((b.startOffset + t.2.1 : Nat) : Int), ((b.startOffset + t.2.2 : Nat) : Int)))
    let curStart2 := match chunks2.getLast? with
      | some tr => tr.2.2
      | none => curStart
    (chunks2, cur1, curStart2)
  else if ¬cur.isEmpty ∧ maxChars < ((cur.length + bt.length + 2 : Nat) : Int) then
    if minChars ≤ ((pyStrip cur).length : Int) then
      let ov := getOverlapText overlapChars cur
      let cur2 := if ov.isEmpty then bt else ov ++ '\n' :: '\n' :: bt
      let newStart : Int :=
        if ov.isEmpty then (b.startOffset : Int) else (b.startOffset : Int) - (ov.length : Int)
      (chunks ++ [(cur, curStart, curStart + (cur.length : Int))], cur2, newStart)
    else (chunks, cur ++ '\n' :: '\n' :: bt, curStart)
  else
    if cur.isEmpty then (chunks, bt, (b.startOffset : Int))
    else (chunks, cur ++ '\n' :: '\n' :: bt, curStart)

/-- `ChunkingPipeline._semantic_chunk` (chunker.py lines 186-262). -/
def semanticChunk (maxChars minChars overlapChars : Int) (text : List Char) :
    List (List Char × Int × Int) :=
  if text.isEmpty then []
  else
    let blocks := parseSemanticBlocks text
    if blocks.isEmpty then [(text, 0, (text.length : Int))]
    else
      let fin := blocks.foldl (semanticChunkStep maxChars minChars overlapChars) ([], [], 0)
      let (chunks, cur, curStart) := fin
      let chunks :=
        if (pyStrip cur).isEmpty then chunks
        else chunks ++ [(cur, curStart, curStart + (cur.length : Int))]
      if chunks.isEmpty then [(text, 0, (text.length : Int))] else chunks

/-! ### Chunk payloads and `build` (chunker.py lines 27-38, 80-184) -/

/-- `ChunkPayload` (chunker.py lines 27-38).  The `metadata` dict is
modelled by its individual entries: `start_char`, `end_char` and
`page_numbers` (`[]` encodes an absent `page_numbers` key; `page_start` /
`page_end` are its first / last element).  The float-valued `list_density`
entry is not modelled (floating point; no property reads it).
`created_at` is a wall-clock timestamp, abstracted to a `Nat` supplied by
the caller. -/
structure ChunkPayload where
  chunkId : String
  fileId : String
  ordinal : Nat
  text : List Char
  snippet : List Char
  tokenCount : Nat
  charCount : Nat
  sectionPath : Option String
  startChar : Int
  endChar : Int
  pageNumbers : List Int
  createdAt : Nat
deriving DecidableEq, Repr

/-- `ChunkingPipeline._get_pages_for_range` (chunker.py lines 704-722):
`sorted({page for (ps, pe, page) in mapping if start < pe and ps < end})`. -/
def insertUniqueInt (x : Int) : List Int → List Int
  | [] => [x]
  | y :: ys => if y = x then y :: ys else if y < x then y :: insertUniqueInt x ys else x :: y :: ys

def getPagesForRange (start «end» : Int) (pm : List (Int × Int × Int)) : List Int :=
  (pm.filterMap (fun r => if start < r.2.1 ∧ r.1 < «end» then some r.2.2 else none)).foldl
    (fun acc x => insertUniqueInt x acc) []

/-- Payload construction inside the `build` loop (chunker.py lines 131-179). -/
def mkChunkPayload (cfg : ChunkingPipeline) (fileId : String) (pm : List (Int × Int × Int))
    (now : Nat) (sp : Option String) (o : Nat) (clean : List Char) (absS absE : Int) :
    ChunkPayload :=
  { chunkId := chunkIdStr fileId o absS
    fileId := fileId
    ordinal := o
    text := clean
    snippet := clean.take 400
    tokenCount := tokenCountNoTok cfg.charsPerToken clean
    charCount := clean.length
    sectionPath := sp
    startChar := absS
    endChar := absE
    pageNumbers := if pm.isEmpty then [] else getPagesForRange absS absE pm
    createdAt := now }

/-- Inner loop of `build` over one section's chunk triples (chunker.py lines
131-179): strips each chunk, skips empty ones, skips chunks whose token
count is below `min_chunk_tokens` when the section produced more than one
chunk, and threads the running ordinal. -/
def sectionPayloads (cfg : ChunkingPipeline) (fileId : String) (pm : List (Int × Int × Int))
    (now : Nat) (sp : Option String) (sStart : Int) (total : Nat) :
    List (List Char × Int × Int) → Nat → List ChunkPayload × Nat
  | [], o => ([], o)
  | (t, rs, re) :: rest, o =>
    let clean := pyStrip t
    if clean.isEmpty then sectionPayloads cfg fileId pm now sp sStart total rest o
    else if ((tokenCountNoTok cfg.charsPerToken clean : Nat) : Int) < cfg.minChunkTokens ∧ 1 < total then
      sectionPayloads cfg fileId pm now sp sStart total rest o
    else
      let p := mkChunkPayload cfg fileId pm now sp o clean (sStart + rs) (sStart + re)
      let rec2 := sectionPayloads cfg fileId pm now sp sStart total rest (o + 1)
      (p :: rec2.1, rec2.2)

/-- Outer loop of `build` over sections (chunker.py lines 119-179). -/
def buildPreMerge (cfg : ChunkingPipeline) (fileId : String) (pm : List (Int × Int × Int))
    (now : Nat) (maxChars minChars overlapChars : Int) :
    List (Option String × List Char × Nat) → Nat → List ChunkPayload
  | [], _ => []
  | (sp, body, sStart) :: rest, o =>
    if (pyStrip body).isEmpty then
      buildPreMerge cfg fileId pm now maxChars minChars overlapChars rest o
    else
      let triples := semanticChunk maxChars minChars overlapChars body
      let pr := sectionPayloads cfg fileId pm now sp (sStart : Int) triples.length triples o
      pr.1 ++ buildPreMerge cfg fileId pm now maxChars minChars overlapChars rest pr.2

/-! ### Small-chunk merge pass (chunker.py lines 724-865) -/

/-- Merge of a pending small chunk with the following payload (chunker.py
lines 765-807).  The merged payload keeps the pending chunk's id, ordinal
and `created_at`; `section_path` combines the two paths.  (When both source
paths are falsy Python stores the empty string where the model stores
`some ""`; no property distinguishes the two.)  `combined <= max_chars*1.5`
is the exact integer comparison `2 * combined ≤ 3 * max_chars` — the float
product is exact for all realistic sizes. -/
def mergePayloads (cfg : ChunkingPipeline) (pm : List (Int × Int × Int))
    (pend payload : ChunkPayload) : ChunkPayload :=
  let combinedText := pend.text ++ '\n' :: '\n' :: payload.text
  let ps := pend.sectionPath.getD ("")
  let cs := payload.sectionPath.getD ("")
  let combinedSection : String :=
    if ¬(ps = "") ∧ ¬(cs = "") ∧ ¬(ps = cs) then ps ++ (" | ") ++ cs
    else if ps = "" then cs else ps
  { chunkId := pend.chunkId
    fileId := pend.fileId
    ordinal := pend.ordinal
    text := combinedText
    snippet := combinedText.take 400
    tokenCount := tokenCountNoTok cfg.charsPerToken combinedText
    charCount := combinedText.length
    sectionPath := some combinedSection
    startChar := pend.startChar
    endChar := payload.endChar
    pageNumbers :=
      if pm.isEmpty then pend.pageNumbers
      else
        let pages := getPagesForRange pend.startChar payload.endChar pm
        if pages.isEmpty then pend.pageNumbers else pages
    createdAt := pend.createdAt }

/-- Backward merge of a dangling final small chunk into the previous result
(chunker.py lines 826-857). -/
def mergeBackward (cfg : ChunkingPipeline) (pm : List (Int × Int × Int))
    (last pend : ChunkPayload) : ChunkPayload :=
  let combinedText := last.text ++ '\n' :: '\n' :: pend.text
  { chunkId := last.chunkId
    fileId := last.fileId
    ordinal := last.ordinal
    text := combinedText
    snippet := combinedText.take 400
    tokenCount := tokenCountNoTok cfg.charsPerToken combinedText
    charCount := combinedText.length
    sectionPath := last.sectionPath
    startChar := last.startChar
    endChar := pend.endChar
    pageNumbers :=
      if pm.isEmpty then last.pageNumbers
      else
        let pages := getPagesForRange last.startChar pend.endChar pm
        if pages.isEmpty then last.pageNumbers else pages
    createdAt := last.createdAt }

/-- Loop body of `_merge_small_chunks` (chunker.py lines 749-822).
State: `(merged, pending)`. -/
def mergeStep (cfg : ChunkingPipeline) (minChars maxChars : Int) (pm : List (Int × Int × Int))
    (st : List ChunkPayload × Option ChunkPayload) (payload : ChunkPayload) :
    List ChunkPayload × Option ChunkPayload :=
  match st.2 with
  | none =>
    if (payload.charCount : Int) < minChars then (st.1, some payload)
    else (st.1 ++ [payload], none)
  | some pend =>
    let combined : Int := (pend.charCount : Int) + (payload.charCount : Int) + 2
    if combined ≤ maxChars ∨ ((payload.charCount : Int) < minChars ∧ 2 * combined ≤ 3 * maxChars) then
      let mp := mergePayloads cfg pm pend payload
      if (mp.charCount : Int) < minChars then (st.1, some mp) else (st.1 ++ [mp], none)
    else
      if (payload.charCount : Int) < minChars then (st.1 ++ [pend], some payload)
      else (st.1 ++ [pend, payload], none)

/-- Trailing-pending handling of `_merge_small_chunks` (chunker.py lines 824-859). -/
def mergeFlush (cfg : ChunkingPipeline) (maxChars : Int) (pm : List (Int × Int × Int))
    (st : List ChunkPayload × Option ChunkPayload) : List ChunkPayload :=
  match st.2 with
  | none => st.1
  | some pend =>
    match st.1.getLast? with
    | some last =>
      if ((last.charCount : Int) + (pend.charCount : Int) + 2) ≤ maxChars then
        st.1.dropLast ++ [mergeBackward cfg pm last pend]
      else st.1 ++ [pend]
    | none => [pend]

/-- Ordinal re-numbering after merging (chunker.py lines 861-863). -/
def renumber (l : List ChunkPayload) : List ChunkPayload :=
  l.mapIdx (fun i p => { p with ordinal := i })

/-- `ChunkingPipeline._merge_small_chunks` (chunker.py lines 724-865). -/
def mergeSmallChunks (cfg : ChunkingPipeline) (minChars maxChars : Int)
    (pm : List (Int × Int × Int)) (payloads : List ChunkPayload) : List ChunkPayload :=
  if payloads.length ≤ 1 then payloads
  else
    renumber (mergeFlush cfg maxChars pm
      (payloads.foldl (mergeStep cfg minChars maxChars pm) ([], none)))

/-- `ChunkingPipeline.build` (chunker.py lines 80-184).  `now` abstracts
`datetime.now` stamped into `created_at`; `pageMapping = []` models the
`None` / empty-mapping argument (both falsy in the source). -/
def ChunkingPipeline.build (cfg : ChunkingPipeline) (fileId : String) (text : List Char)
    (pageMapping : List (Int × Int × Int)) (chunkTokensOv overlapTokensOv : Option Int)
    (now : Nat) : List ChunkPayload :=
  if (pyStrip text).isEmpty then []
  else
    let maxChars : Int := targetChunkTokens cfg chunkTokensOv * (cfg.charsPerToken : Int)
    let minChars : Int := cfg.minChunkTokens * (cfg.charsPerToken : Int)
    let overlapChars : Int := targetOverlapTokens cfg overlapTokensOv * (cfg.charsPerToken : Int)
    let sections := splitSections (cfg.minChunkTokens * (cfg.charsPerToken : Int)) text
    let pre := buildPreMerge cfg fileId pageMapping now maxChars minChars overlapChars sections 0
    mergeSmallChunks cfg minChars maxChars pageMapping pre

/-! ### Indexer: store / embed stage (indexer.py lines 1386-1541)

Embedding vectors are lists of floats in the source; the orchestrator only
counts and stores them, never inspects components, so the component type is
modelled as `Int`.  The relational storage and the vector store are
external collaborators; their calls are recorded as an effect list. -/

abbrev Vec := List Int

/-- The two `FileRecord.metadata` keys that `_store_artifact` reads or
writes (`vector_chunks`, `chunk_strategy`); `none` models an absent key. -/
structure RecordMetadata where
  vectorChunks : Option (List String)
  chunkStrategy : Option String
deriving DecidableEq, Repr

/-- The `FileRecord` fields used by the store stage and change detection.
`modifiedAt` is in seconds (`datetime.total_seconds()` differences are
exact for our purposes as rationals). -/
structure FileRecord where
  id : String
  checksumSha256 : Option String
  embeddingVector : Option Vec
  embeddingDeterminedAt : Option Nat
  summary : Option String
  previewImage : Option String
  indexStatus : String
  errorReason : Option String
  errorAt : Option Nat
  metadata : RecordMetadata
deriving DecidableEq, Repr

structure ChunkSnapshot where
  chunkId : String
  text : List Char
deriving DecidableEq, Repr

structure IngestArtifact where
  record : FileRecord
  chunks : List ChunkSnapshot
deriving DecidableEq, Repr

structure VectorDocument where
  docId : String
  vector : Vec
deriving DecidableEq, Repr

inductive StoreEffect where
  | encodeCall (texts : List (List Char))
  | vectorDelete (ids : List String)
  | vectorUpsert (docs : List VectorDocument)
  | vectorFlush
  | upsertFile (r : FileRecord)
  | replaceChunks (fileId : String) (chunks : List ChunkSnapshot)
  | markFileIndexed (fileId : String)
  | markFileError (fileId : String) (reason : String)
deriving DecidableEq, Repr

/-- The settings consulted by `_store_artifact` / `_embed_chunks`
(`reuse_embeddings`, `embed_batch_size`, `embed_max_chars`; the inter-batch
delay is a sleep with no modelled effect). -/
structure IndexerSettings where
  reuseEmbeddings : Bool
  embedBatchSize : Int
  embedMaxChars : Nat
deriving DecidableEq, Repr

/-- `range(0, len, batch_size)` slicing into batches (`batch_size ≥ 1`). -/
def chunkBatches {α : Type} (bs : Nat) : Nat → List α → List (List α)
  | 0, _ => []
  | _, [] => []
  | fuel + 1, x :: xs => (x :: xs.take (bs - 1)) :: chunkBatches bs fuel (xs.drop (bs - 1))

/-- Batch loop of `_embed_chunks` (indexer.py lines 1504-1541): each batch
is truncated to `max_chars` per text and sent to
`EmbeddingClient.encode`; a returned vector count different from the batch
size raises (indexer.py lines 1519-1523). -/
def embedChunksGo (encode : List (List Char) → List Vec) (maxChars : Nat) :
    List (List (ChunkSnapshot × List Char)) → Except String (List Vec) × List StoreEffect
  | [] => (Except.ok [], [])
  | batch :: rest =>
    let texts := batch.map (fun p => p.2.take maxChars)
    let vs := encode texts
    if vs.length ≠ batch.length then
      (Except.error
        (("Embedding service returned ") ++ toString vs.length ++
          (" vectors for batch of ") ++ toString batch.length ++ (" chunks")),
       [StoreEffect.encodeCall texts])
    else
      let r := embedChunksGo encode maxChars rest
      (r.1.map (fun tail => vs ++ tail), StoreEffect.encodeCall texts :: r.2)

/-- `IndexOrchestrator._embed_chunks` (indexer.py lines 1491-1541). -/
def embedChunks (st : IndexerSettings) (encode : List (List Char) → List Vec)
    (chunks : List ChunkSnapshot) : Except String (List Vec) × List StoreEffect :=
  let payloads := (chunks.map (fun c => (c, pyStrip c.text))).filter (fun p => ¬p.2.isEmpty)
  if payloads.isEmpty then (Except.ok [], [])
  else
    embedChunksGo encode st.embedMaxChars
      (chunkBatches (max st.embedBatchSize 1).toNat (payloads.length + 1) payloads)

/-- The reuse fast path of `_store_artifact` (indexer.py lines 1405-1415):
refresh the file record in place, no embedding and no vector-store calls. -/
def storeArtifactReuse (artifact : IngestArtifact) (ex : FileRecord)
    (previousChunkIds : List String) : FileRecord × List StoreEffect :=
  let md := artifact.record.metadata
  let md2 := { md with vectorChunks :=
    match md.vectorChunks with
    | some v => some v
    | none => some previousChunkIds }
  let r := { artifact.record with
    metadata := md2
    embeddingVector := ex.embeddingVector
    embeddingDeterminedAt := ex.embeddingDeterminedAt
    summary := ex.summary
    previewImage :=
      match artifact.record.previewImage with
      | some p => some p
      | none => ex.previewImage
    indexStatus := ("indexed")
    errorReason := none
    errorAt := none }
  (r, [StoreEffect.upsertFile r])

/-- The embed-and-upsert path of `_store_artifact` (indexer.py lines
1417-1489).  The `try/except` around `_embed_chunks` catches any error and
continues with `vectors = []`; vector-store delete/upsert failures are also
caught in the source (collaborators are total here, so those branches do
not appear).  `zip` stops at the shorter list, as in Python. -/
def storeArtifactEmbed (st : IndexerSettings) (encode : List (List Char) → List Vec)
    (artifact : IngestArtifact) (previousChunkIds : List String) (now : Nat) :
    FileRecord × List StoreEffect :=
  let chunkSnapshots := artifact.chunks
  let embedRes := embedChunks st encode chunkSnapshots
  let vectors :=
    match embedRes.1 with
    | Except.ok v => v
    | Except.error _ => []
  let documents := (chunkSnapshots.zip vectors).map (fun p => VectorDocument.mk p.1.chunkId p.2)
  let deleteEffs :=
    if previousChunkIds.isEmpty then [] else [StoreEffect.vectorDelete previousChunkIds]
  let upsertEffs :=
    if documents.isEmpty then [] else [StoreEffect.vectorUpsert documents, StoreEffect.vectorFlush]
  let md2 := { artifact.record.metadata with vectorChunks := some (documents.map (fun d => d.docId)) }
  let r0 := { artifact.record with metadata := md2 }
  let r1 :=
    match vectors with
    | [] => r0
    | v :: _ => { r0 with embeddingVector := some v, embeddingDeterminedAt := some now }
  let r := { r1 with indexStatus := ("indexed"), errorReason := none, errorAt := none }
  (r, embedRes.2 ++ deleteEffs ++ upsertEffs ++
    [StoreEffect.upsertFile r, StoreEffect.replaceChunks artifact.record.id chunkSnapshots])

/-- `IndexOrchestrator._store_artifact` (indexer.py lines 1386-1489). -/
def storeArtifact (st : IndexerSettings) (encode : List (List Char) → List Vec)
    (existing : Option FileRecord) (artifact : IngestArtifact)
    (refreshEmbeddings : Bool) (now : Nat) : FileRecord × List StoreEffect :=
  let previousChunkIds := (existing.bind (fun ex => ex.metadata.vectorChunks)).getD []
  match existing with
  | some ex =>
    if ex.checksumSha256 = artifact.record.checksumSha256 ∧
        ex.embeddingVector.isSome = true ∧
        previousChunkIds ≠ [] ∧
        st.reuseEmbeddings = true ∧
        refreshEmbeddings = false ∧
        ex.metadata.chunkStrategy = artifact.record.metadata.chunkStrategy then
      storeArtifactReuse artifact ex previousChunkIds
    else storeArtifactEmbed st encode artifact previousChunkIds now
  | none => storeArtifactEmbed st encode artifact previousChunkIds now

/-- Store stage of `_process_single_file` (indexer.py lines 619-626):
`_store_artifact` followed by `storage.mark_file_indexed` (the `except`
branch that marks the file `error` only fires when the stage raises, which
total collaborators never do). -/
def processFileStoreStage (st : IndexerSettings) (encode : List (List Char) → List Vec)
    (existing : Option FileRecord) (artifact : IngestArtifact)
    (refreshEmbeddings : Bool) (now : Nat) : FileRecord × List StoreEffect :=
  let r := storeArtifact st encode existing artifact refreshEmbeddings now
  (r.1, r.2 ++ [StoreEffect.markFileIndexed artifact.record.id])

def isUpsertEff : StoreEffect → Bool
  | StoreEffect.vectorUpsert _ => true
  | _ => false

def isEncodeEff : StoreEffect → Bool
  | StoreEffect.encodeCall _ => true
  | _ => false

def isDeleteEff : StoreEffect → Bool
  | StoreEffect.vectorDelete _ => true
  | _ => false

def isMarkErrorEff : StoreEffect → Bool
  | StoreEffect.markFileError _ _ => true
  | _ => false

def countEff (p : StoreEffect → Bool) (effs : List StoreEffect) : Nat :=
  (effs.filter p).length

/-! ### Indexer: change detection (indexer.py lines 541-586) -/

/-- The stored-record fields read by `_paths_to_refresh`. -/
structure StoredFileInfo where
  modifiedAt : Rat
  size : Int
  checksumSha256 : Option String
deriving DecidableEq, Repr

/-- One candidate path of `_paths_to_refresh`: whether it is in the
folder's `failed_files`, the stored record (if any) and the `stat` result
(`none` models an `OSError`). -/
structure Candidate where
  pathId : String
  inFailedList : Bool
  existing : Option StoredFileInfo
  statResult : Option (Rat × Int)
deriving DecidableEq, Repr

/-- Python `if not existing.checksum_sha256` — `None` and the empty string
are both falsy. -/
def checksumFalsy : Option String → Bool
  | none => true
  | some s => s.isEmpty

/-- Per-path body of `_paths_to_refresh` (indexer.py lines 553-585). -/
def shouldRefreshFile (c : Candidate) : Bool :=
  if c.inFailedList then true
  else
    match c.existing with
    | none => true
    | some ex =>
      match c.statResult with
      | none => true
      | some ms =>
        if 1 ≤ |ms.1 - ex.modifiedAt| then true
        else if ex.size ≠ ms.2 then true
        else checksumFalsy ex.checksumSha256

/-- `IndexOrchestrator._paths_to_refresh` (indexer.py lines 541-586):
with `refresh_embeddings` set, every candidate is returned; otherwise the
changed-file filter applies. -/
def pathsToRefresh (refreshEmbeddings : Bool) (cands : List Candidate) : List Candidate :=
  if refreshEmbeddings then cands else cands.filter shouldRefreshFile

/-! ### Indexer: run lock (indexer.py lines 251-266) -/

structure IndexProgress where
  status : String
  processed : Nat
  failed : Nat
deriving DecidableEq, Repr

structure Orchestrator where
  lockLocked : Bool
  progress : IndexProgress
  isPaused : Bool
  pauseEventSet : Bool
  cancelledFolders : List String
deriving DecidableEq, Repr

/-- `IndexOrchestrator.refresh` entry (indexer.py lines 251-269): with the
run lock held, the current progress snapshot is returned unchanged and
nothing else happens; otherwise the body runs under the lock (the body —
target resolution, batching, the folder loop — is abstracted as `runBody`,
applied to the state after the lock acquisition and the initial
pause/cancel resets). -/
def Orchestrator.refresh (runBody : Orchestrator → IndexProgress × Orchestrator)
    (o : Orchestrator) : IndexProgress × Orchestrator :=
  if o.lockLocked then (o.progress, o)
  else runBody { o with
    lockLocked := true
    isPaused := false
    pauseEventSet := true
    cancelledFolders := [] }

/-! ### Indexer: pause / resume and the per-folder file loop
(indexer.py lines 393-418, 443-457, 683-698)

The cooperative loop is modelled as a step relation on run configurations:
`startFile` is the `await self._pause_event.wait()` + dequeue + the
beginning of `_process_single_file` (which calls `_set_running_progress`),
`finishFile` is a file running to completion (success path: counter
increment + `_set_running_progress`), and `pauseCall` / `resumeCall` are
the public methods, callable at any time. -/

structure RunConfig where
  pending : List String
  active : Option String
  pauseEventSet : Bool
  isPaused : Bool
  status : String
  currentRunStarted : Bool
  processed : Nat
deriving DecidableEq, Repr

/-- `IndexOrchestrator._set_running_progress` (indexer.py lines 443-457):
no-op before a run has started, otherwise rebuilds the progress snapshot
with `status="running"`. -/
def setRunningProgress (c : RunConfig) : RunConfig :=
  if ¬c.currentRunStarted then c else { c with status := ("running") }

/-- `IndexOrchestrator.pause` (indexer.py lines 393-410). -/
def pauseResult (c : RunConfig) : RunConfig :=
  if ¬(c.status = ("running")) ∨ c.isPaused then c
  else { c with isPaused := true, pauseEventSet := false, status := ("paused") }

/-- `IndexOrchestrator.resume` (indexer.py lines 412-418). -/
def resumeResult (c : RunConfig) : RunConfig :=
  if ¬c.isPaused then c
  else setRunningProgress { c with isPaused := false, pauseEventSet := true }

inductive RunStep : RunConfig → RunConfig → Prop where
  | startFile (c : RunConfig) (f : String) (rest : List String) :
      c.pauseEventSet = true → c.active = none → c.pending = f :: rest →
      RunStep c (setRunningProgress { c with pending := rest, active := some f })
  | finishFile (c : RunConfig) (f : String) :
      c.active = some f →
      RunStep c (setRunningProgress { c with active := none, processed := c.processed + 1 })
  | pauseCall (c : RunConfig) : RunStep c (pauseResult c)
  | resumeCall (c : RunConfig) : RunStep c (resumeResult c)

/-! ### Concrete instances used by the claim theorems -/

set_option maxRecDepth 10000

/-- A pipeline with the constructor defaults of chunker.py line 61
(`chunk_tokens=480, overlap_tokens=80, min_chunk_tokens=50`). -/
def cfgDefault : ChunkingPipeline := ChunkingPipeline.init 480 80 50

/-- A pipeline constructed with `chunk_tokens=64, overlap_tokens=0,
min_chunk_tokens=20` (all at their clamp floors). -/
def cfg64 : ChunkingPipeline := ChunkingPipeline.init 64 0 20

/-- Two sentences separated by a run of four newlines. -/
def textC3 : List Char := ("a.\n\n\n\nb.").toList

/-- The spec's two-short-sections example input. -/
def textC8 : List Char := ("# A\npara1.\n\n# B\npara2.").toList

/-- Two markdown sections: a sparse small one (body 10 non-blank chars
spread over 89 chars, so it survives the section merge but chunks to a
10-char payload) followed by a 254-char one. -/
def textC4 : List Char :=
  ("# A\nx.").toList ++ List.replicate 80 '\n' ++ ("y.\n# B\n").toList ++ List.replicate 250 'p'

/-- The spec-side coverage property of the chunk character ranges: every
character index of the input lies in some returned chunk's
`[start_char, end_char)` range. -/
def rangesCoverInput (textLen : Nat) (cs : List ChunkPayload) : Prop :=
  ∀ i : Nat, i < textLen → ∃ c ∈ cs, c.startChar ≤ (i : Int) ∧ (i : Int) < c.endChar

/-! ### C10 -/

/-- C10: every `ChunkingPipeline.__init__` silently clamps its arguments —
`chunk_tokens ≥ 64`, `min_chunk_tokens ≥ 20`,
`0 ≤ overlap_tokens ≤ chunk_tokens // 4` — and these fields are never
mutated afterwards (the model's configuration is immutable), while the
per-call overrides accepted by `build` are used verbatim, unclamped. -/
theorem C10_init_clamped_overrides_unclamped :
    ∀ ct ot mt : Int,
      64 ≤ (ChunkingPipeline.init ct ot mt).chunkTokens ∧
      20 ≤ (ChunkingPipeline.init ct ot mt).minChunkTokens ∧
      0 ≤ (ChunkingPipeline.init ct ot mt).overlapTokens ∧
      (ChunkingPipeline.init ct ot mt).overlapTokens ≤
        Int.fdiv (ChunkingPipeline.init ct ot mt).chunkTokens 4 ∧
      (∀ t : Int, targetChunkTokens (ChunkingPipeline.init ct ot mt) (some t) = t) ∧
      (∀ t : Int, targetOverlapTokens (ChunkingPipeline.init ct ot mt) (some t) = t) := by
  intro ct ot mt
  have hc : (64 : Int) ≤ max ct 64 := le_max_right ct 64
  have hd : (0 : Int) ≤ Int.fdiv (max ct 64) 4 :=
    Int.fdiv_nonneg (by omega) (by norm_num)
  refine ⟨le_max_right ct 64, le_max_right mt 20, le_max_right _ 0, ?_, fun t => rfl, fun t => rfl⟩
  simp only [ChunkingPipeline.init]
  exact max_le (min_le_right ot _) hd

/-! ### C5 -/

/-- C5: a refresh request while the run lock is held returns the in-flight
run's current progress snapshot unchanged and performs no other state
change; the request is neither queued nor blocked on (the run body is never
entered), so the lock keeps at most one run active. -/
theorem C5_refresh_while_locked_is_noop :
    ∀ (runBody : Orchestrator → IndexProgress × Orchestrator) (o : Orchestrator),
      o.lockLocked = true →
      Orchestrator.refresh runBody o = (o.progress, o) := by
  intro runBody o h
  simp [Orchestrator.refresh, h]

def orchW : Orchestrator :=
  { lockLocked := true
    progress := { status := ("running"), processed := 3, failed := 0 }
    isPaused := false
    pauseEventSet := true
    cancelledFolders := [] }

/-- Witness for `C5_refresh_while_locked_is_noop` at a concrete
locked orchestrator state. -/
theorem C5_refresh_witness :
    orchW.lockLocked = true ∧
      Orchestrator.refresh (fun o => (o.progress, o)) orchW = (orchW.progress, orchW) :=
  ⟨rfl, C5_refresh_while_locked_is_noop (fun o => (o.progress, o)) orchW rfl⟩

/-! ### C6 -/

theorem shouldRefreshFile_iff (c : Candidate) (m : Rat) (sz : Int)
    (h : c.statResult = some (m, sz)) :
    shouldRefreshFile c = true ↔
      (c.inFailedList = true ∨ c.existing = none ∨
        ∃ ex, c.existing = some ex ∧
          (1 ≤ |m - ex.modifiedAt| ∨ ex.size ≠ sz ∨ checksumFalsy ex.checksumSha256 = true)) := by
  unfold shouldRefreshFile
  cases hf : c.inFailedList with
  | true => simp [hf]
  | false =>
    cases he : c.existing with
    | none => simp [he]
    | some ex =>
      rw [h]
      simp only [he, hf, Bool.false_eq_true, false_or, Option.some.injEq, if_false]
      constructor
      · intro hsel
        refine Or.inr ⟨ex, rfl, ?_⟩
        split_ifs at hsel with h1 h2
        · exact Or.inl h1
        · exact Or.inr (Or.inl h2)
        · exact Or.inr (Or.inr hsel)
      · rintro (hnone | ⟨ex2, hex2, hcond⟩)
        · simp at hnone
        · cases hex2
          split_ifs with h1 h2
          · rfl
          · rfl
          · rcases hcond with hx | hx | hx
            · exact absurd hx h1
            · exact absurd hx h2
            · exact hx

/-- C6: in a non-forced refresh, change detection selects a candidate iff
it previously failed, or has no stored record, or (with the stat of the
file on disk succeeding with mtime `m` and size `sz`) the stored mtime
differs by at least one second, or the stored size differs, or the stored
checksum is missing; with the force flag set, every candidate is selected. -/
theorem C6_change_detection :
    ∀ (cands : List Candidate) (c : Candidate) (m : Rat) (sz : Int),
      c.statResult = some (m, sz) →
      ((c ∈ pathsToRefresh false cands ↔
          c ∈ cands ∧
            (c.inFailedList = true ∨ c.existing = none ∨
              ∃ ex, c.existing = some ex ∧
                (1 ≤ |m - ex.modifiedAt| ∨ ex.size ≠ sz ∨
                  checksumFalsy ex.checksumSha256 = true))) ∧
        pathsToRefresh true cands = cands) := by
  intro cands c m sz h
  constructor
  · rw [pathsToRefresh, if_neg (by simp), List.mem_filter, shouldRefreshFile_iff c m sz h]
  · rw [pathsToRefresh, if_pos rfl]

def candW : Candidate :=
  { pathId := "p1", inFailedList := true, existing := none, statResult := some (0, 0) }

/-- Witness for `C6_change_detection` at a concrete previously-failed
candidate. -/
theorem C6_change_detection_witness :
    candW ∈ pathsToRefresh false [candW] ∧ pathsToRefresh true [candW] = [candW] := by
  have h := C6_change_detection [candW] candW 0 0 rfl
  exact ⟨h.1.mpr ⟨List.mem_singleton.mpr rfl, Or.inl rfl⟩, h.2⟩

/-! ### C8 -/

/-- C8 counterexample: on the spec's own example input with the default
configuration (minimum 200 chars, larger than either section body), the
single returned chunk's `section_path` is `"1:A"` — it carries only the
first section's label, not both (`"1:B"` does not occur in it). -/
theorem C8_cex_single_chunk_has_first_label_only :
    (cfgDefault.build ("f") textC8 [] none none 0).map (fun c => c.sectionPath) =
        [some ("1:A")] ∧
      pyFindFrom ("1:A").toList ("1:B").toList 0 = none := by
  exact ⟨by decide, by decide⟩

/-- C8 (amended): the two small sections are merged into exactly one chunk
containing both sections' full text, but the chunk's section path carries
only the first section's label `1:A` (the pre-chunking section merge keeps
the pending section's path). -/
theorem C8_sections_merge_to_one_chunk :
    (cfgDefault.build ("f") textC8 [] none none 0).map
        (fun c => (c.text, c.sectionPath, c.ordinal)) =
      [(textC8, some ("1:A"), 0)] := by
  decide

/-! ### C3 counterexample -/

/-- C3 counterexample: for the input `"a.\n\n\n\nb."` (8 chars) the
pipeline returns a single chunk whose recorded character range is
`[0, 6)` — the characters at indices 6 and 7 (the second sentence) are in
no chunk's range, so the ranges do not cover the input. -/
theorem C3_cex_ranges_have_gap :
    (cfgDefault.build ("f") textC3 [] none none 0).map (fun c => (c.startChar, c.endChar)) =
        [((0 : Int), (6 : Int))] ∧
      ¬rangesCoverInput textC3.length (cfgDefault.build ("f") textC3 [] none none 0) := by
  have hfst : (cfgDefault.build ("f") textC3 [] none none 0).map
      (fun c => (c.startChar, c.endChar)) = [((0 : Int), (6 : Int))] := by decide
  refine ⟨hfst, fun h => ?_⟩
  obtain ⟨c, hc, h1, h2⟩ := h 6 (by decide)
  have hm := List.mem_map_of_mem (fun c => (c.startChar, c.endChar)) hc
  rw [hfst] at hm
  simp only [List.mem_singleton, Prod.mk.injEq] at hm
  rw [hm.2] at h2
  norm_num at h2

/-! ### C4 counterexample -/

/-- C4 counterexample: with `min_chunk_tokens=20` (minimum 80 chars) and
`chunk_tokens=64` (maximum 256 chars), `build` on `textC4` returns two
chunks of 10 and 254 characters: the 10-char chunk is below the configured
minimum although it is not the only chunk produced. -/
theorem C4_cex_small_chunk_not_alone :
    (cfg64.build ("f") textC4 [] none none 0).map (fun c => c.charCount) = [10, 254] ∧
      ((10 : Int) < cfg64.minChunkTokens * (cfg64.charsPerToken : Int)) ∧
      (cfg64.build ("f") textC4 [] none none 0).length = 2 := by
  refine ⟨by decide, by decide, by decide⟩

/-! ### C1 -/

theorem embedChunksGo_no_upsert (encode : List (List Char) → List Vec) (maxChars : Nat) :
    ∀ batches, countEff isUpsertEff (embedChunksGo encode maxChars batches).2 = 0 := by
  intro batches
  induction batches with
  | nil => rfl
  | cons batch rest ih =>
    rw [embedChunksGo]
    split_ifs with h
    · rfl
    · simpa [countEff, List.filter, isUpsertEff] using ih

theorem embedChunks_no_upsert (st : IndexerSettings) (encode : List (List Char) → List Vec)
    (chunks : List ChunkSnapshot) :
    countEff isUpsertEff (embedChunks st encode chunks).2 = 0 := by
  rw [embedChunks]
  split_ifs with h
  · rfl
  · exact embedChunksGo_no_upsert encode st.embedMaxChars _

/-- C1 counterexample: an embedding client returning zero vectors for a
one-chunk batch makes `_embed_chunks` raise the mismatch error, yet the
store stage catches it, upserts nothing — and marks the file `indexed`,
not `error`. -/
def stW : IndexerSettings := { reuseEmbeddings := true, embedBatchSize := 32, embedMaxChars := 8000 }

def encodeNoneW : List (List Char) → List Vec := fun _ => []

def recordW : FileRecord :=
  { id := "file1"
    checksumSha256 := some ("abc")
    embeddingVector := none
    embeddingDeterminedAt := none
    summary := none
    previewImage := none
    indexStatus := "pending"
    errorReason := none
    errorAt := none
    metadata := { vectorChunks := none, chunkStrategy := some ("chunker_v1_fast") } }

def artifactW : IngestArtifact :=
  { record := recordW, chunks := [{ chunkId := "c1", text := ("hello").toList }] }

theorem C1_cex_mismatch_file_still_indexed :
    (embedChunks stW encodeNoneW artifactW.chunks).1 =
        Except.error (("Embedding service returned 0 vectors for batch of 1 chunks")) ∧
      (processFileStoreStage stW encodeNoneW none artifactW false 0).1.indexStatus = ("indexed") ∧
      countEff isUpsertEff (processFileStoreStage stW encodeNoneW none artifactW false 0).2 = 0 ∧
      countEff isMarkErrorEff (processFileStoreStage stW encodeNoneW none artifactW false 0).2 = 0 :=
  ⟨rfl, rfl, rfl, rfl⟩

/-- C1 (amended): if the embedding client returns a vector count different
from a requested batch (the only error `_embed_chunks` raises), the store
stage upserts no vectors for the file — but the error is caught inside
`_store_artifact`, and the per-file pipeline marks the file `indexed`
(without fresh embeddings), not `error`. -/
theorem storeArtifactEmbed_error (st : IndexerSettings) (encode : List (List Char) → List Vec)
    (artifact : IngestArtifact) (prev : List String) (now : Nat) (msg : String)
    (h : (embedChunks st encode artifact.chunks).1 = Except.error msg) :
    countEff isUpsertEff (storeArtifactEmbed st encode artifact prev now).2 = 0 ∧
      (storeArtifactEmbed st encode artifact prev now).1.indexStatus = ("indexed") := by
  have h1 := embedChunks_no_upsert st encode artifact.chunks
  unfold storeArtifactEmbed
  simp only [h, List.zip_nil_right, List.map_nil, List.isEmpty_nil, if_true]
  constructor
  · simp only [countEff, List.filter_append, List.length_append] at h1 ⊢
    simp only [h1]
    split_ifs <;> simp [List.filter, isUpsertEff]
  · simp

theorem C1_embed_mismatch_no_upsert_but_indexed :
    ∀ (st : IndexerSettings) (encode : List (List Char) → List Vec)
      (existing : Option FileRecord) (artifact : IngestArtifact)
      (refreshEmbeddings : Bool) (now : Nat) (msg : String),
      (embedChunks st encode artifact.chunks).1 = Except.error msg →
      countEff isUpsertEff
          (processFileStoreStage st encode existing artifact refreshEmbeddings now).2 = 0 ∧
        (processFileStoreStage st encode existing artifact refreshEmbeddings now).1.indexStatus =
          ("indexed") := by
  intro st encode existing artifact refreshEmbeddings now msg h
  unfold processFileStoreStage storeArtifact
  cases existing with
  | none =>
    have h2 := storeArtifactEmbed_error st encode artifact ([]) now msg h
    dsimp only
    simp only [Option.none_bind, Option.getD_none]
    refine ⟨?_, h2.2⟩
    simp only [countEff, List.filter_append, List.length_append] at h2 ⊢
    rw [h2.1]
    simp [List.filter_cons, isUpsertEff]
  | some ex =>
    dsimp only
    split_ifs with hcond
    · exact ⟨by simp [storeArtifactReuse, countEff, isUpsertEff, List.filter_cons],
        by simp [storeArtifactReuse]⟩
    · have h2 := storeArtifactEmbed_error st encode artifact
        ((ex.metadata.vectorChunks).getD []) now msg h
      simp only [Option.some_bind]
      refine ⟨?_, h2.2⟩
      simp only [countEff, List.filter_append, List.length_append] at h2 ⊢
      rw [h2.1]
      simp [List.filter_cons, isUpsertEff]

/-- Witness for `C1_embed_mismatch_no_upsert_but_indexed` at the concrete
mismatching client. -/
theorem C1_embed_mismatch_witness :
    (embedChunks stW encodeNoneW artifactW.chunks).1 =
        Except.error (("Embedding service returned 0 vectors for batch of 1 chunks")) ∧
      countEff isUpsertEff (processFileStoreStage stW encodeNoneW none artifactW false 0).2 = 0 ∧
      (processFileStoreStage stW encodeNoneW none artifactW false 0).1.indexStatus = ("indexed") := by
  have h := C1_embed_mismatch_no_upsert_but_indexed stW encodeNoneW none artifactW false 0
    (("Embedding service returned 0 vectors for batch of 1 chunks")) rfl
  exact ⟨rfl, h.1, h.2⟩

/-! ### C2 -/

/-- C2: the reuse fast path — stored checksum equal to the new one, stored
embedding present, stored vector-chunk ids non-empty, reuse enabled,
refresh not forced, chunk-strategy tag unchanged — issues zero
embedding-client calls and zero vector-store upserts or deletes; the single
effect is the file-record refresh, with status `indexed`, error fields
cleared, and the previous vector-chunk ids and embedding retained. -/
theorem C2_reuse_fast_path_no_calls :
    ∀ (st : IndexerSettings) (encode : List (List Char) → List Vec)
      (ex : FileRecord) (artifact : IngestArtifact) (now : Nat)
      (v : Vec) (ids : List String),
      ex.checksumSha256 = artifact.record.checksumSha256 →
      ex.embeddingVector = some v →
      ex.metadata.vectorChunks = some ids →
      ids ≠ [] →
      st.reuseEmbeddings = true →
      ex.metadata.chunkStrategy = artifact.record.metadata.chunkStrategy →
      artifact.record.metadata.vectorChunks = none →
      countEff isEncodeEff (storeArtifact st encode (some ex) artifact false now).2 = 0 ∧
        countEff isUpsertEff (storeArtifact st encode (some ex) artifact false now).2 = 0 ∧
        countEff isDeleteEff (storeArtifact st encode (some ex) artifact false now).2 = 0 ∧
        (storeArtifact st encode (some ex) artifact false now).2 =
          [StoreEffect.upsertFile (storeArtifact st encode (some ex) artifact false now).1] ∧
        (storeArtifact st encode (some ex) artifact false now).1.indexStatus = ("indexed") ∧
        (storeArtifact st encode (some ex) artifact false now).1.errorReason = none ∧
        (storeArtifact st encode (some ex) artifact false now).1.errorAt = none ∧
        (storeArtifact st encode (some ex) artifact false now).1.metadata.vectorChunks = some ids ∧
        (storeArtifact st encode (some ex) artifact false now).1.embeddingVector = some v := by
  intro st encode ex artifact now v ids hsum hvec hids hne hreuse hstrat hfresh
  have hprev : ((Option.bind (some ex) fun ex => ex.metadata.vectorChunks).getD []) = ids := by
    simp [hids]
  have hcond : ex.checksumSha256 = artifact.record.checksumSha256 ∧
      ex.embeddingVector.isSome = true ∧
      ((Option.bind (some ex) fun ex => ex.metadata.vectorChunks).getD []) ≠ [] ∧
      st.reuseEmbeddings = true ∧
      (false = false) ∧
      ex.metadata.chunkStrategy = artifact.record.metadata.chunkStrategy := by
    refine ⟨hsum, by simp [hvec], by rw [hprev]; exact hne, hreuse, rfl, hstrat⟩
  unfold storeArtifact
  dsimp only
  rw [if_pos hcond, hprev]
  unfold storeArtifactReuse
  dsimp only
  refine ⟨rfl, rfl, rfl, rfl, rfl, rfl, rfl, ?_, hvec⟩
  simp [hfresh]

def exW : FileRecord :=
  { id := "file1"
    checksumSha256 := some ("abc")
    embeddingVector := some [1]
    embeddingDeterminedAt := some 5
    summary := some ("a summary")
    previewImage := none
    indexStatus := "indexed"
    errorReason := none
    errorAt := none
    metadata := { vectorChunks := some ["k1"], chunkStrategy := some ("chunker_v1_fast") } }

/-- Witness for `C2_reuse_fast_path_no_calls` at a concrete stored record
matching the fresh artifact. -/
theorem C2_reuse_fast_path_witness :
    countEff isEncodeEff (storeArtifact stW encodeNoneW (some exW) artifactW false 0).2 = 0 ∧
      countEff isUpsertEff (storeArtifact stW encodeNoneW (some exW) artifactW false 0).2 = 0 ∧
      (storeArtifact stW encodeNoneW (some exW) artifactW false 0).1.indexStatus = ("indexed") ∧
      (storeArtifact stW encodeNoneW (some exW) artifactW false 0).1.metadata.vectorChunks =
        some ["k1"] := by
  have h := C2_reuse_fast_path_no_calls stW encodeNoneW exW artifactW 0 [1] ["k1"]
    rfl rfl rfl (by decide) rfl rfl rfl
  exact ⟨h.1, h.2.1, h.2.2.2.2.1, h.2.2.2.2.2.2.2.1⟩

/-! ### C9 -/

theorem setRunningProgress_active (c : RunConfig) : (setRunningProgress c).active = c.active := by
  unfold setRunningProgress; split_ifs <;> rfl

theorem setRunningProgress_pending (c : RunConfig) : (setRunningProgress c).pending = c.pending := by
  unfold setRunningProgress; split_ifs <;> rfl

theorem pauseResult_active (c : RunConfig) : (pauseResult c).active = c.active := by
  unfold pauseResult; split_ifs <;> rfl

theorem pauseResult_pending (c : RunConfig) : (pauseResult c).pending = c.pending := by
  unfold pauseResult; split_ifs <;> rfl

theorem resumeResult_active (c : RunConfig) : (resumeResult c).active = c.active := by
  unfold resumeResult setRunningProgress; split_ifs <;> rfl

/-- A run paused while the file `f` is in flight (`pause()` already ran:
status `paused`, pause event cleared), with `g` still pending. -/
def runCfgPausedMidFile : RunConfig :=
  { pending := ["g"]
    active := some ("f")
    pauseEventSet := false
    isPaused := true
    status := "paused"
    currentRunStarted := true
    processed := 0 }

/-- C9 counterexample: from a run paused while file `f` is in flight, the
in-flight file's completion (the success branch of the per-file loop, which
calls `_set_running_progress`) flips the reported status back to
`running` although `resume` was never called and (`is_paused` still set,
pause event still cleared) no next file can start. -/
def runCfgAfterFinish : RunConfig :=
  setRunningProgress { runCfgPausedMidFile with active := none, processed := runCfgPausedMidFile.processed + 1 }

theorem C9_cex_status_lost_on_file_completion :
    RunStep runCfgPausedMidFile runCfgAfterFinish ∧
      runCfgPausedMidFile.status = ("paused") ∧
      runCfgPausedMidFile.isPaused = true ∧
      runCfgAfterFinish.status = ("running") ∧
      runCfgAfterFinish.isPaused = true ∧
      runCfgAfterFinish.pauseEventSet = false :=
  ⟨RunStep.finishFile runCfgPausedMidFile ("f") rfl, rfl, rfl, rfl, rfl, rfl⟩

/-- C9 (amended): pause never interrupts the in-flight file — the pause
transition leaves the active file and the pending queue untouched, no step
can start a file while the pause event is cleared, the in-flight file can
always run to completion, pause (from a running un-paused state) reports
`paused` and clears the event, resume sets the event again, and the next
file started after resume is the head of the pending queue.  (The reported
status does not stay `paused` until resume: a file completing while paused
resets it to `running` — see the counterexample.) -/
theorem C9_pause_cooperative :
    (∀ c : RunConfig, (pauseResult c).active = c.active ∧ (pauseResult c).pending = c.pending) ∧
    (∀ c c' : RunConfig, RunStep c c' → c.pauseEventSet = false →
      ∀ f : String, c'.active = some f → c.active = some f) ∧
    (∀ (c : RunConfig) (f : String), c.active = some f →
      RunStep c (setRunningProgress { c with active := none, processed := c.processed + 1 })) ∧
    (∀ c : RunConfig, c.status = ("running") → c.isPaused = false →
      (pauseResult c).status = ("paused") ∧ (pauseResult c).pauseEventSet = false) ∧
    (∀ c : RunConfig, c.isPaused = true →
      (resumeResult c).isPaused = false ∧ (resumeResult c).pauseEventSet = true) ∧
    (∀ (c : RunConfig) (f : String) (rest : List String),
      c.pauseEventSet = true → c.active = none → c.pending = f :: rest →
      RunStep c (setRunningProgress { c with pending := rest, active := some f }) ∧
        (setRunningProgress { c with pending := rest, active := some f }).active = some f ∧
        (setRunningProgress { c with pending := rest, active := some f }).pending = rest) := by
  refine ⟨fun c => ⟨pauseResult_active c, pauseResult_pending c⟩, ?_, ?_, ?_, ?_, ?_⟩
  · intro c c' hstep hev f hact
    cases hstep with
    | startFile g rest hev2 hact2 hpend => rw [hev2] at hev; cases hev
    | finishFile g hg =>
      rw [setRunningProgress_active] at hact
      cases hact
    | pauseCall => rw [pauseResult_active] at hact; exact hact
    | resumeCall => rw [resumeResult_active] at hact; exact hact
  · intro c f hf
    exact RunStep.finishFile c f hf
  · intro c hrun hp
    unfold pauseResult
    rw [if_neg (by simp [hrun, hp])]
    exact ⟨rfl, rfl⟩
  · intro c hp
    unfold resumeResult
    rw [if_neg (by simp [hp])]
    unfold setRunningProgress
    split_ifs <;> exact ⟨rfl, rfl⟩
  · intro c f rest hev hact hpend
    exact ⟨RunStep.startFile c f rest hev hact hpend,
      by rw [setRunningProgress_active], by rw [setRunningProgress_pending]⟩

def runCfgRunningW : RunConfig :=
  { pending := ["g"]
    active := some ("f")
    pauseEventSet := true
    isPaused := false
    status := "running"
    currentRunStarted := true
    processed := 0 }

def runCfgReadyW : RunConfig :=
  { pending := ["g"]
    active := none
    pauseEventSet := true
    isPaused := false
    status := "running"
    currentRunStarted := true
    processed := 1 }

/-- Witness for `C9_pause_cooperative` at concrete run configurations. -/
theorem C9_pause_cooperative_witness :
    (pauseResult runCfgRunningW).active = some ("f") ∧
      runCfgPausedMidFile.active = some ("f") ∧
      RunStep runCfgRunningW
        (setRunningProgress { runCfgRunningW with active := none, processed := runCfgRunningW.processed + 1 }) ∧
      (pauseResult runCfgRunningW).status = ("paused") ∧
      (resumeResult runCfgPausedMidFile).pauseEventSet = true ∧
      RunStep runCfgReadyW
        (setRunningProgress { runCfgReadyW with pending := [], active := some ("g") }) := by
  have h := C9_pause_cooperative
  refine ⟨(h.1 runCfgRunningW).1.trans rfl, ?_, h.2.2.1 runCfgRunningW ("f") rfl,
    (h.2.2.2.1 runCfgRunningW rfl rfl).1, (h.2.2.2.2.1 runCfgPausedMidFile rfl).2, ?_⟩
  · exact h.2.1 runCfgPausedMidFile (pauseResult runCfgPausedMidFile)
      (RunStep.pauseCall runCfgPausedMidFile) rfl ("f") rfl
  · exact (h.2.2.2.2.2 runCfgReadyW ("g") [] rfl rfl rfl).1

/-! ### C3 (amended): ordinals are consecutive -/

/-- `build` unfolded to its pipeline of stages. -/
theorem build_eq (cfg : ChunkingPipeline) (fileId : String) (text : List Char)
    (pm : List (Int × Int × Int)) (cto oto : Option Int) (now : Nat) :
    ChunkingPipeline.build cfg fileId text pm cto oto now =
      if (pyStrip text).isEmpty then []
      else
        mergeSmallChunks cfg (cfg.minChunkTokens * (cfg.charsPerToken : Int))
          (targetChunkTokens cfg cto * (cfg.charsPerToken : Int)) pm
          (buildPreMerge cfg fileId pm now
            (targetChunkTokens cfg cto * (cfg.charsPerToken : Int))
            (cfg.minChunkTokens * (cfg.charsPerToken : Int))
            (targetOverlapTokens cfg oto * (cfg.charsPerToken : Int))
            (splitSections (cfg.minChunkTokens * (cfg.charsPerToken : Int)) text) 0) := rfl

theorem sectionPayloads_ordinals (cfg : ChunkingPipeline) (fileId : String)
    (pm : List (Int × Int × Int)) (now : Nat) (sp : Option String) (sStart : Int) (total : Nat) :
    ∀ (ts : List (List Char × Int × Int)) (o : Nat),
      (sectionPayloads cfg fileId pm now sp sStart total ts o).1.map (fun p => p.ordinal) =
          List.range' o (sectionPayloads cfg fileId pm now sp sStart total ts o).1.length ∧
        (sectionPayloads cfg fileId pm now sp sStart total ts o).2 =
          o + (sectionPayloads cfg fileId pm now sp sStart total ts o).1.length := by
  intro ts
  induction ts with
  | nil => intro o; simp [sectionPayloads]
  | cons t rest ih =>
    intro o
    obtain ⟨t, rs, re⟩ := t
    rw [sectionPayloads]
    split_ifs with h1 h2
    · exact ih o
    · exact ih o
    · have hrec := ih (o + 1)
      dsimp only
      constructor
      · rw [List.map_cons, hrec.1, List.length_cons, List.range'_succ]
        rfl
      · rw [List.length_cons, hrec.2]
        omega

theorem buildPreMerge_ordinals (cfg : ChunkingPipeline) (fileId : String)
    (pm : List (Int × Int × Int)) (now : Nat) (maxChars minChars overlapChars : Int) :
    ∀ (secs : List (Option String × List Char × Nat)) (o : Nat),
      (buildPreMerge cfg fileId pm now maxChars minChars overlapChars secs o).map
          (fun p => p.ordinal) =
        List.range' o
          (buildPreMerge cfg fileId pm now maxChars minChars overlapChars secs o).length := by
  intro secs
  induction secs with
  | nil => intro o; simp [buildPreMerge]
  | cons sec rest ih =>
    intro o
    obtain ⟨sp, body, sStart⟩ := sec
    rw [buildPreMerge]
    split_ifs with h1
    · exact ih o
    · dsimp only
      have hsec := sectionPayloads_ordinals cfg fileId pm now sp (sStart : Int)
        (semanticChunk maxChars minChars overlapChars body).length
        (semanticChunk maxChars minChars overlapChars body) o
      rw [List.map_append, hsec.1, ih _, hsec.2, List.length_append, List.range'_append_1]
      congr 1
      omega

theorem renumber_ordinals (l : List ChunkPayload) :
    (renumber l).map (fun p => p.ordinal) = List.range l.length := by
  rw [renumber, List.mapIdx_eq_enum_map, List.map_map]
  have h1 : ((fun p => p.ordinal) ∘ Function.uncurry
      (fun (i : Nat) (p : ChunkPayload) => { p with ordinal := i })) =
      (Prod.fst : Nat × ChunkPayload → Nat) := rfl
  rw [h1, List.enum_map_fst]

/-- C3 (amended): the chunks are returned in ordinal order with ordinals
exactly `0, 1, …, n-1` (re-numbered after merging); their character ranges
need not cover the input — inter-block whitespace is collapsed and end
offsets are recomputed from the rebuilt chunk text, so gaps can occur (see
the counterexample). -/
theorem C3_ordinals_consecutive :
    ∀ (cfg : ChunkingPipeline) (fileId : String) (text : List Char)
      (pm : List (Int × Int × Int)) (cto oto : Option Int) (now : Nat),
      (ChunkingPipeline.build cfg fileId text pm cto oto now).map (fun p => p.ordinal) =
        List.range (ChunkingPipeline.build cfg fileId text pm cto oto now).length := by
  intro cfg fileId text pm cto oto now
  rw [build_eq]
  split_ifs with h
  · rfl
  · rw [mergeSmallChunks]
    split_ifs with hlen
    · rw [buildPreMerge_ordinals, List.range_eq_range']
    · rw [renumber_ordinals]
      congr 1
      rw [renumber, List.length_mapIdx]

/-! ### C4 (amended): a small chunk is never left mergeable

The merge pass can leave a chunk below the minimum size next to others
(see the counterexample), but only when merging it forward would overflow
the maximum: adjacent pairs whose first member is small always sum past
`max_chars`. -/

/-- Payload well-formedness: the `char_count` field is the length of the
chunk text (true of every payload `build` constructs and preserved by both
merge operations). -/
def PayloadWF (p : ChunkPayload) : Prop := p.charCount = p.text.length

/-- The adjacent-pair property: a chunk below the minimum size cannot be
merged with its successor within the maximum. -/
def SmallAdj (minChars maxChars : Int) (a b : ChunkPayload) : Prop :=
  (a.charCount : Int) < minChars →
    maxChars < (a.charCount : Int) + (b.charCount : Int) + 2

theorem mergePayloads_charCount (cfg : ChunkingPipeline) (pm : List (Int × Int × Int))
    (pend payload : ChunkPayload) (h1 : PayloadWF pend) (h2 : PayloadWF payload) :
    (mergePayloads cfg pm pend payload).charCount = pend.charCount + payload.charCount + 2 ∧
      PayloadWF (mergePayloads cfg pm pend payload) := by
  unfold PayloadWF at h1 h2 ⊢
  unfold mergePayloads
  dsimp only
  constructor
  · simp [List.length_append, h1, h2]
    omega
  · rfl

theorem mergeBackward_charCount (cfg : ChunkingPipeline) (pm : List (Int × Int × Int))
    (last pend : ChunkPayload) (h1 : PayloadWF last) (h2 : PayloadWF pend) :
    (mergeBackward cfg pm last pend).charCount = last.charCount + pend.charCount + 2 := by
  unfold PayloadWF at h1 h2
  unfold mergeBackward
  dsimp only
  simp [List.length_append, h1, h2]
  omega

/-- Invariant carried through the `_merge_small_chunks` fold. -/
structure MergeInv (minC maxC : Int) (st : List ChunkPayload × Option ChunkPayload) : Prop where
  chain : List.Chain' (SmallAdj minC maxC) st.1
  wfAll : ∀ p ∈ st.1, PayloadWF p
  pendWF : ∀ p, st.2 = some p → PayloadWF p
  pendSmall : ∀ p, st.2 = some p → (p.charCount : Int) < minC
  pendAdj : ∀ p, st.2 = some p → ∀ q, st.1.getLast? = some q →
    (q.charCount : Int) < minC → maxC < (q.charCount : Int) + (p.charCount : Int) + 2
  lastBig : st.2 = none → ∀ q, st.1.getLast? = some q → ¬((q.charCount : Int) < minC)

theorem chain'_concat_of {R : ChunkPayload → ChunkPayload → Prop} {l : List ChunkPayload}
    {a : ChunkPayload} (h : List.Chain' R l) (hb : ∀ q, l.getLast? = some q → R q a) :
    List.Chain' R (l ++ [a]) := by
  rw [List.chain'_append]
  refine ⟨h, List.chain'_singleton a, ?_⟩
  intro x hx y hy
  simp only [List.head?_cons, Option.mem_def, Option.some.injEq] at hy
  subst hy
  exact hb x hx

theorem mergeStep_inv (cfg : ChunkingPipeline) (pm : List (Int × Int × Int))
    {minC maxC : Int} {st : List ChunkPayload × Option ChunkPayload}
    (p : ChunkPayload) (hWFp : PayloadWF p) (h : MergeInv minC maxC st) :
    MergeInv minC maxC (mergeStep cfg minC maxC pm st p) := by
  obtain ⟨merged, pending⟩ := st
  unfold mergeStep
  cases pending with
  | none =>
    dsimp only at h ⊢
    split_ifs with hsmall
    · exact { chain := h.chain, wfAll := h.wfAll
              pendWF := fun q hq => by cases hq; exact hWFp
              pendSmall := fun q hq => by cases hq; exact hsmall
              pendAdj := fun q hq r hr hrs => absurd hrs (h.lastBig rfl r hr)
              lastBig := fun hq => by cases hq }
    · refine { chain := chain'_concat_of h.chain ?_, wfAll := ?_, pendWF := ?_,
               pendSmall := ?_, pendAdj := ?_, lastBig := ?_ }
      · intro q hq hqs
        exact absurd hqs (h.lastBig rfl q hq)
      · intro q hq
        rcases List.mem_append.mp hq with hin | hin
        · exact h.wfAll q hin
        · simp only [List.mem_singleton] at hin; subst hin; exact hWFp
      · intro q hq; cases hq
      · intro q hq; cases hq
      · intro q hq; cases hq
      · intro _ q hq
        rw [List.getLast?_concat] at hq
        cases hq
        exact hsmall
  | some pend =>
    dsimp only at h ⊢
    have hpendWF := h.pendWF pend rfl
    have hpendSmall := h.pendSmall pend rfl
    have hmp := mergePayloads_charCount cfg pm pend p hpendWF hWFp
    split_ifs with hok hmps hpsmall
    · -- merge, result still small: pending := mp
      exact { chain := h.chain, wfAll := h.wfAll
              pendWF := fun q hq => by cases hq; exact hmp.2
              pendSmall := fun q hq => by cases hq; exact hmps
              pendAdj := fun q hq r hr hrs => by
                cases hq
                have h1 := h.pendAdj pend rfl r hr hrs
                rw [hmp.1]
                push_cast at h1 ⊢
                omega
              lastBig := fun hq => by cases hq }
    · -- merge, result big: append mp
      refine { chain := chain'_concat_of h.chain ?_, wfAll := ?_, pendWF := ?_,
               pendSmall := ?_, pendAdj := ?_, lastBig := ?_ }
      · intro q hq hqs
        have h1 := h.pendAdj pend rfl q hq hqs
        rw [hmp.1]
        push_cast at h1 ⊢
        omega
      · intro q hq
        rcases List.mem_append.mp hq with hin | hin
        · exact h.wfAll q hin
        · simp only [List.mem_singleton] at hin; subst hin; exact hmp.2
      · intro q hq; cases hq
      · intro q hq; cases hq
      · intro q hq; cases hq
      · intro _ q hq
        rw [List.getLast?_concat] at hq
        cases hq
        exact hmps
    · -- cannot merge, next is small: append pend, pending := p
      refine { chain := chain'_concat_of h.chain ?_, wfAll := ?_, pendWF := ?_,
               pendSmall := ?_, pendAdj := ?_, lastBig := ?_ }
      · intro q hq hqs
        exact h.pendAdj pend rfl q hq hqs
      · intro q hq
        rcases List.mem_append.mp hq with hin | hin
        · exact h.wfAll q hin
        · simp only [List.mem_singleton] at hin; subst hin; exact hpendWF
      · intro q hq; cases hq; exact hWFp
      · intro q hq; cases hq; exact hpsmall
      · intro q hq r hr hrs
        cases hq
        rw [List.getLast?_concat] at hr
        cases hr
        push_cast at hok ⊢
        omega
      · intro hq; cases hq
    · -- cannot merge, next is big: append pend and p
      have hl2 : merged ++ [pend, p] = (merged ++ [pend]) ++ [p] := by
        rw [List.append_assoc]; rfl
      refine { chain := ?_, wfAll := ?_, pendWF := ?_,
               pendSmall := ?_, pendAdj := ?_, lastBig := ?_ }
      · rw [hl2]
        refine chain'_concat_of (chain'_concat_of h.chain ?_) ?_
        · intro q hq hqs
          exact h.pendAdj pend rfl q hq hqs
        · intro q hq
          rw [List.getLast?_concat] at hq
          cases hq
          intro _
          push_cast at hok ⊢
          omega
      · intro q hq
        rcases List.mem_append.mp hq with hin | hin
        · exact h.wfAll q hin
        · simp only [List.mem_cons, List.mem_singleton] at hin
          rcases hin with hin | hin | hin
          · subst hin; exact hpendWF
          · subst hin; exact hWFp
          · exact absurd hin (List.not_mem_nil q)
      · intro q hq; cases hq
      · intro q hq; cases hq
      · intro q hq; cases hq
      · intro _ q hq
        rw [hl2, List.getLast?_concat] at hq
        cases hq
        exact hpsmall

theorem foldl_mergeStep_inv (cfg : ChunkingPipeline) (pm : List (Int × Int × Int))
    (minC maxC : Int) :
    ∀ (l : List ChunkPayload) (st : List ChunkPayload × Option ChunkPayload),
      (∀ p ∈ l, PayloadWF p) → MergeInv minC maxC st →
      MergeInv minC maxC (l.foldl (mergeStep cfg minC maxC pm) st) := by
  intro l
  induction l with
  | nil => intro st _ h; exact h
  | cons a rest ih =>
    intro st hWF h
    rw [List.foldl_cons]
    exact ih _ (fun p hp => hWF p (List.mem_cons_of_mem a hp))
      (mergeStep_inv cfg pm a (hWF a (List.mem_cons_self a rest)) h)

theorem mergeFlush_chain (cfg : ChunkingPipeline) (pm : List (Int × Int × Int))
    {minC maxC : Int} {st : List ChunkPayload × Option ChunkPayload}
    (h : MergeInv minC maxC st) :
    List.Chain' (SmallAdj minC maxC) (mergeFlush cfg maxC pm st) := by
  obtain ⟨merged, pending⟩ := st
  unfold mergeFlush
  cases pending with
  | none => exact h.chain
  | some pend =>
    dsimp only at h ⊢
    cases hlast : merged.getLast? with
    | none =>
      rw [List.getLast?_eq_none_iff] at hlast
      subst hlast
      exact List.chain'_singleton pend
    | some last =>
      have hne : merged ≠ [] := by
        intro hnil; rw [hnil] at hlast; cases hlast
      have hWFlast : PayloadWF last := by
        have hmem : last ∈ merged := by
          have := List.getLast?_eq_getLast merged hne
          rw [this] at hlast
          cases hlast
          exact List.getLast_mem hne
        exact h.wfAll last hmem
      have hWFpend := h.pendWF pend rfl
      have hsplit : merged.dropLast ++ [last] = merged := by
        have h1 := List.dropLast_append_getLast hne
        have h2 := List.getLast?_eq_getLast merged hne
        rw [h2] at hlast
        cases hlast
        exact h1
      dsimp only
      split_ifs with hfit
      · -- backward merge into the last chunk
        have hchain2 : List.Chain' (SmallAdj minC maxC) (merged.dropLast ++ [last]) := by
          rw [hsplit]; exact h.chain
        rw [List.chain'_append] at hchain2
        refine chain'_concat_of hchain2.1 ?_
        intro q hq hqs
        have hql := hchain2.2.2 q hq last (by simp)
        have h1 := hql hqs
        rw [mergeBackward_charCount cfg pm last pend hWFlast hWFpend]
        push_cast at h1 ⊢
        omega
      · refine chain'_concat_of h.chain ?_
        intro q hq hqs
        rw [hlast] at hq
        cases hq
        exact h.pendAdj pend rfl _ hlast hqs

theorem chain'_renumber {minC maxC : Int} {l : List ChunkPayload}
    (h : List.Chain' (SmallAdj minC maxC) l) :
    List.Chain' (SmallAdj minC maxC) (renumber l) := by
  rw [renumber, List.mapIdx_eq_enum_map, List.chain'_map]
  have h2 : List.Chain' (fun x y : Nat × ChunkPayload => SmallAdj minC maxC x.2 y.2) l.enum := by
    have h3 : l.enum.map Prod.snd = l := List.enum_map_snd l
    rw [← h3] at h
    exact (List.chain'_map Prod.snd).mp h
  exact h2

theorem mergeSmallChunks_chain (cfg : ChunkingPipeline) (minC maxC : Int)
    (pm : List (Int × Int × Int)) (l : List ChunkPayload) (hWF : ∀ p ∈ l, PayloadWF p) :
    List.Chain' (SmallAdj minC maxC) (mergeSmallChunks cfg minC maxC pm l) := by
  rw [mergeSmallChunks]
  split_ifs with hlen
  · match l with
    | [] => exact List.chain'_nil
    | [a] => exact List.chain'_singleton a
    | a :: b :: t => simp at hlen
  · apply chain'_renumber
    apply mergeFlush_chain cfg pm
    refine foldl_mergeStep_inv cfg pm minC maxC l ([], none) hWF ?_
    exact { chain := List.chain'_nil
            wfAll := fun p hp => absurd hp (List.not_mem_nil p)
            pendWF := fun p hp => by cases hp
            pendSmall := fun p hp => by cases hp
            pendAdj := fun p hp => by cases hp
            lastBig := fun _ q hq => by cases hq }

theorem sectionPayloads_wf (cfg : ChunkingPipeline) (fileId : String)
    (pm : List (Int × Int × Int)) (now : Nat) (sp : Option String) (sStart : Int) (total : Nat) :
    ∀ (ts : List (List Char × Int × Int)) (o : Nat),
      ∀ p ∈ (sectionPayloads cfg fileId pm now sp sStart total ts o).1, PayloadWF p := by
  intro ts
  induction ts with
  | nil => intro o p hp; cases hp
  | cons t rest ih =>
    intro o p hp
    obtain ⟨t, rs, re⟩ := t
    rw [sectionPayloads] at hp
    split_ifs at hp with h1 h2
    · exact ih o p hp
    · exact ih o p hp
    · rcases List.mem_cons.mp hp with hin | hin
      · subst hin; rfl
      · exact ih (o + 1) p hin

theorem buildPreMerge_wf (cfg : ChunkingPipeline) (fileId : String)
    (pm : List (Int × Int × Int)) (now : Nat) (maxChars minChars overlapChars : Int) :
    ∀ (secs : List (Option String × List Char × Nat)) (o : Nat),
      ∀ p ∈ buildPreMerge cfg fileId pm now maxChars minChars overlapChars secs o,
        PayloadWF p := by
  intro secs
  induction secs with
  | nil => intro o p hp; cases hp
  | cons sec rest ih =>
    intro o p hp
    obtain ⟨sp, body, sStart⟩ := sec
    rw [buildPreMerge] at hp
    split_ifs at hp with h1
    · exact ih o p hp
    · rcases List.mem_append.mp hp with hin | hin
      · exact sectionPayloads_wf cfg fileId pm now sp (sStart : Int) _ _ o p hin
      · exact ih _ p hin

/-- C4 (amended): a returned chunk below the configured minimum character
size can appear even when it is not the only chunk (see the
counterexample); what holds is that no small chunk is ever left mergeable —
whenever a returned chunk is below the minimum, its combined size with the
following chunk (plus the 2-char separator) exceeds the configured maximum.
(The no-chunk-exceeds-the-maximum guarantee is not re-stated: overlap
seeding and the relaxed small-small merge can exceed the maximum without an
indivisible structural unit.) -/
theorem C4_small_chunk_only_when_unmergeable :
    ∀ (cfg : ChunkingPipeline) (fileId : String) (text : List Char)
      (pm : List (Int × Int × Int)) (cto oto : Option Int) (now : Nat),
      List.Chain'
        (fun a b => (a.charCount : Int) < cfg.minChunkTokens * (cfg.charsPerToken : Int) →
          targetChunkTokens cfg cto * (cfg.charsPerToken : Int) <
            (a.charCount : Int) + (b.charCount : Int) + 2)
        (ChunkingPipeline.build cfg fileId text pm cto oto now) := by
  intro cfg fileId text pm cto oto now
  rw [build_eq]
  split_ifs with h
  · exact List.chain'_nil
  · exact mergeSmallChunks_chain cfg _ _ pm _
      (buildPreMerge_wf cfg fileId pm now _ _ _ _ 0)

/-! ### C7: chunk ids are deterministic

`build` is a pure function of its arguments except for the wall-clock
`created_at` stamp, modelled by the explicit `now` argument.  The chunk-id
sequence is independent of `now`, so two calls with identical arguments on
identically configured pipelines yield identical id sequences. -/

/-- Replace a payload's `created_at` stamp. -/
def stampNow (now : Nat) (p : ChunkPayload) : ChunkPayload := { p with createdAt := now }

theorem stampNow_charCount (now : Nat) (p : ChunkPayload) :
    (stampNow now p).charCount = p.charCount := rfl

theorem stampNow_chunkId (now : Nat) (p : ChunkPayload) :
    (stampNow now p).chunkId = p.chunkId := rfl

theorem mkChunkPayload_stamp (cfg : ChunkingPipeline) (fileId : String)
    (pm : List (Int × Int × Int)) (now : Nat) (sp : Option String) (o : Nat)
    (clean : List Char) (absS absE : Int) :
    mkChunkPayload cfg fileId pm now sp o clean absS absE =
      stampNow now (mkChunkPayload cfg fileId pm 0 sp o clean absS absE) := rfl

theorem sectionPayloads_stamp (cfg : ChunkingPipeline) (fileId : String)
    (pm : List (Int × Int × Int)) (now : Nat) (sp : Option String) (sStart : Int) (total : Nat) :
    ∀ (ts : List (List Char × Int × Int)) (o : Nat),
      (sectionPayloads cfg fileId pm now sp sStart total ts o).1 =
          (sectionPayloads cfg fileId pm 0 sp sStart total ts o).1.map (stampNow now) ∧
        (sectionPayloads cfg fileId pm now sp sStart total ts o).2 =
          (sectionPayloads cfg fileId pm 0 sp sStart total ts o).2 := by
  intro ts
  induction ts with
  | nil => intro o; exact ⟨rfl, rfl⟩
  | cons t rest ih =>
    intro o
    obtain ⟨t, rs, re⟩ := t
    rw [sectionPayloads, sectionPayloads]
    split_ifs with h1 h2
    · exact ih o
    · exact ih o
    · dsimp only
      refine ⟨?_, (ih (o + 1)).2⟩
      rw [List.map_cons, (ih (o + 1)).1, mkChunkPayload_stamp]

theorem buildPreMerge_stamp (cfg : ChunkingPipeline) (fileId : String)
    (pm : List (Int × Int × Int)) (now : Nat) (maxChars minChars overlapChars : Int) :
    ∀ (secs : List (Option String × List Char × Nat)) (o : Nat),
      buildPreMerge cfg fileId pm now maxChars minChars overlapChars secs o =
        (buildPreMerge cfg fileId pm 0 maxChars minChars overlapChars secs o).map
          (stampNow now) := by
  intro secs
  induction secs with
  | nil => intro o; rfl
  | cons sec rest ih =>
    intro o
    obtain ⟨sp, body, sStart⟩ := sec
    rw [buildPreMerge, buildPreMerge]
    split_ifs with h1
    · exact ih o
    · dsimp only
      have hs := sectionPayloads_stamp cfg fileId pm now sp (sStart : Int)
        (semanticChunk maxChars minChars overlapChars body).length
        (semanticChunk maxChars minChars overlapChars body) o
      rw [List.map_append, hs.1, hs.2, ih]

theorem mergePayloads_stamp (cfg : ChunkingPipeline) (pm : List (Int × Int × Int))
    (now : Nat) (pend payload : ChunkPayload) :
    mergePayloads cfg pm (stampNow now pend) (stampNow now payload) =
      stampNow now (mergePayloads cfg pm pend payload) := rfl

theorem mergeBackward_stamp (cfg : ChunkingPipeline) (pm : List (Int × Int × Int))
    (now : Nat) (last pend : ChunkPayload) :
    mergeBackward cfg pm (stampNow now last) (stampNow now pend) =
      stampNow now (mergeBackward cfg pm last pend) := rfl

/-- Stamp a merge-fold state. -/
def stampSt (now : Nat) (st : List ChunkPayload × Option ChunkPayload) :
    List ChunkPayload × Option ChunkPayload :=
  (st.1.map (stampNow now), st.2.map (stampNow now))

theorem mergeStep_stamp (cfg : ChunkingPipeline) (minC maxC : Int)
    (pm : List (Int × Int × Int)) (now : Nat)
    (st : List ChunkPayload × Option ChunkPayload) (p : ChunkPayload) :
    mergeStep cfg minC maxC pm (stampSt now st) (stampNow now p) =
      stampSt now (mergeStep cfg minC maxC pm st p) := by
  obtain ⟨l, pending⟩ := st
  cases pending with
  | none =>
    rw [mergeStep, mergeStep]
    simp only [stampSt, Option.map_none', stampNow_charCount]
    split_ifs with h1
    · rfl
    · simp [stampSt]
  | some pend =>
    rw [mergeStep, mergeStep]
    simp only [stampSt, Option.map_some', stampNow_charCount, mergePayloads_stamp]
    split_ifs with h1 h2 h3
    · rfl
    · simp [stampSt]
    · simp [stampSt]
    · simp [stampSt]

theorem foldl_mergeStep_stamp (cfg : ChunkingPipeline) (minC maxC : Int)
    (pm : List (Int × Int × Int)) (now : Nat) :
    ∀ (l : List ChunkPayload) (st : List ChunkPayload × Option ChunkPayload),
      (l.map (stampNow now)).foldl (mergeStep cfg minC maxC pm) (stampSt now st) =
        stampSt now (l.foldl (mergeStep cfg minC maxC pm) st) := by
  intro l
  induction l with
  | nil => intro st; rfl
  | cons a rest ih =>
    intro st
    rw [List.map_cons, List.foldl_cons, List.foldl_cons, mergeStep_stamp, ih]

theorem mergeFlush_stamp (cfg : ChunkingPipeline) (maxC : Int)
    (pm : List (Int × Int × Int)) (now : Nat)
    (st : List ChunkPayload × Option ChunkPayload) :
    mergeFlush cfg maxC pm (stampSt now st) = (mergeFlush cfg maxC pm st).map (stampNow now) := by
  obtain ⟨l, pending⟩ := st
  cases pending with
  | none => rfl
  | some pend =>
    rw [mergeFlush, mergeFlush]
    simp only [stampSt, Option.map_some']
    cases hlast : l.getLast? with
    | none =>
      rw [List.getLast?_map, hlast]
      rfl
    | some last =>
      rw [List.getLast?_map, hlast]
      dsimp only [Option.map_some']
      simp only [stampNow_charCount]
      split_ifs with h1
      · rw [List.map_append, ← List.map_dropLast, mergeBackward_stamp]
        rfl
      · rw [List.map_append]
        rfl

theorem renumber_stamp (now : Nat) (l : List ChunkPayload) :
    renumber (l.map (stampNow now)) = (renumber l).map (stampNow now) := by
  rw [renumber, renumber, List.mapIdx_eq_enum_map, List.mapIdx_eq_enum_map, List.enum_map,
    List.map_map, List.map_map]
  rfl

theorem mergeSmallChunks_stamp (cfg : ChunkingPipeline) (minC maxC : Int)
    (pm : List (Int × Int × Int)) (now : Nat) (l : List ChunkPayload) :
    mergeSmallChunks cfg minC maxC pm (l.map (stampNow now)) =
      (mergeSmallChunks cfg minC maxC pm l).map (stampNow now) := by
  rw [mergeSmallChunks, mergeSmallChunks, List.length_map]
  split_ifs with h1
  · rfl
  · have hst : (([] : List ChunkPayload), (none : Option ChunkPayload)) =
        stampSt now ([], none) := rfl
    conv_lhs => rw [hst]
    rw [foldl_mergeStep_stamp, mergeFlush_stamp, renumber_stamp]

theorem build_stamp (cfg : ChunkingPipeline) (fileId : String) (text : List Char)
    (pm : List (Int × Int × Int)) (cto oto : Option Int) (now : Nat) :
    ChunkingPipeline.build cfg fileId text pm cto oto now =
      (ChunkingPipeline.build cfg fileId text pm cto oto 0).map (stampNow now) := by
  rw [build_eq, build_eq]
  split_ifs with h
  · rfl
  · rw [buildPreMerge_stamp, mergeSmallChunks_stamp]

/-- C7: `build` is deterministic in its chunk ids — the sequence of
`chunk_id` values is a pure function of `(file_id, text, page_mapping,
configuration)` and does not depend on the wall-clock `created_at` stamp,
the only impure input; two calls with identical arguments on identically
configured pipelines therefore return the same `chunk_id` sequence. -/
theorem C7_chunk_ids_deterministic :
    ∀ (cfg : ChunkingPipeline) (fileId : String) (text : List Char)
      (pm : List (Int × Int × Int)) (cto oto : Option Int) (now₁ now₂ : Nat),
      (ChunkingPipeline.build cfg fileId text pm cto oto now₁).map (fun p => p.chunkId) =
        (ChunkingPipeline.build cfg fileId text pm cto oto now₂).map (fun p => p.chunkId) := by
  intro cfg fileId text pm cto oto now₁ now₂
  rw [build_stamp cfg fileId text pm cto oto now₁, build_stamp cfg fileId text pm cto oto now₂,
    List.map_map, List.map_map]
  rfl

end LocalCocoa
